import Mathlib

/-!
Verification of the query-pipeline execution engine
(`src/Processors/Executors/PipelineExecutor.cpp`).

This file gives a shallow embedding, in Lean, of the executor's data model and of
the operations appearing in `PipelineExecutor.cpp`, and proves the stated
properties about them.

Modelling conventions:
* Processors are external to the executor (the executor never inspects port
  payloads).  A processor's behaviour is an oracle (`Behavior`): `prepare` and
  `expandPipeline` results are functions of the processor's index and of the
  number of calls made to it so far (a counter we keep on the node,
  `prepare_calls` / `expand_calls`, standing for the processor's private state).
* C++ exceptions become `Except` / explicit error results; an exception value is
  an `Exc` (error code plus message).
* `std::stack` becomes a `List` whose head is the top; `std::queue` becomes a
  `List` whose head is the front and pushes append at the end.
* Out-of-range vector indexing is undefined behaviour in the C++; the embedding
  totalizes it with `List.getD` whose default node is inert (status `Finished`,
  so no rule fires on it) and `List.set` (a no-op out of range).  All theorems
  are stated about in-range accesses.
* Locks, timing counters (`#ifndef NDEBUG` blocks) and telemetry are not
  modelled; the embedding is the sequential semantics of the operations.
  The build modelled is the release build (`NDEBUG` defined).
* Code of this repository that is outside `src/` (`ExecutingGraph`,
  `ExecutorTasks`, `printPipeline`) is modelled from the spec; each such
  definition carries a doc comment starting with `Modelled from the spec:`.
-/

namespace ClickHouse

/-- `IProcessor::Status`: the result of a processor's `prepare` call. -/
inductive PStatus where
  | NeedData
  | PortFull
  | Finished
  | Ready
  | Async
  | ExpandPipeline
deriving DecidableEq

/-- `ExecutingGraph::ExecStatus`: the executor-side status of a node. -/
inductive ExecStatus where
  | Idle
  | Preparing
  | Executing
  | Finished
deriving DecidableEq

/-- `ExecutingGraph::Edge`: a directed connection between an output port of one
node and an input port of another; `backward` marks flow-control edges whose
destination is conceptually upstream.  The edge carries only a trigger signal,
never data. -/
structure Edge where
  /-- Index of the destination node (the C++ field is named `to`, a reserved
  token in Lean). -/
  dst : Nat
  backward : Bool
  input_port_number : Nat
  output_port_number : Nat
deriving DecidableEq

/-- Error codes relevant to the executor (`DB::ErrorCodes`). -/
inductive ErrCode where
  | LOGICAL_ERROR
  | QUERY_WAS_CANCELLED
  | PROC_ERROR
deriving DecidableEq

/-- An exception value: error code plus message (`DB::Exception`). -/
structure Exc where
  code : ErrCode
  message : String
deriving DecidableEq

/-- The data the executor reads and writes on an `IProcessor` object itself:
its name and its (mutable) description.  The flat `processors` list holds these;
node `i` of the graph refers to processor `i` (the order in which
`ExecutingGraph` creates nodes from the processor list). -/
structure ProcMeta where
  name : String
  description : String
deriving DecidableEq

/-- `ExecutingGraph::Node`: per-processor execution state.
`prepare_calls` / `expand_calls` are model bookkeeping, standing for the
processor's private state: the behaviour oracle receives them as the call
number. -/
structure Node where
  status : ExecStatus := .Idle
  direct_edges : List Edge := []
  back_edges : List Edge := []
  updated_input_ports : List Nat := []
  updated_output_ports : List Nat := []
  post_updated_input_ports : List Edge := []
  post_updated_output_ports : List Edge := []
  exception : Option Exc := none
  last_processor_status : Option PStatus := none
  num_executed_jobs : Nat := 0
  prepare_calls : Nat := 0
  expand_calls : Nat := 0
deriving DecidableEq

/-- Default node used to totalize out-of-range accesses.  Its status is the
terminal `Finished`, on which no rule of the executor fires, so an (undefined
in C++) out-of-range access is inert in the model. -/
def defaultNode : Node := { status := .Finished }

/-- Default processor metadata for out-of-range accesses. -/
def defaultProc : ProcMeta := { name := "", description := "" }

/-- The behaviour oracle for all processors.  `prepareFn pid k ins outs` is the
result of the `k`-th `prepare` call on processor `pid`, handed the pending
input/output port lists; `expandFn pid k` is the result of the `k`-th
`expandPipeline` call; `wireFn pid k` lists the new edges that this expansion
created (an edge together with the index of the node receiving it and whether
it is received as a back edge), data that in reality is determined by the port
connections of the new processors. -/
structure Behavior where
  prepareFn : Nat → Nat → List Nat → List Nat → Except Exc PStatus
  expandFn : Nat → Nat → Except Exc (List ProcMeta)
  wireFn : Nat → Nat → List (Nat × Edge × Bool)

/-- The state threaded through `PipelineExecutor::prepareProcessor`: the flat
processor list, the graph nodes, the ready queue and async queue being filled,
and the two explicit work stacks (`updated_edges`, `updated_processors`;
head = top of stack). -/
structure PPState where
  processors : List ProcMeta
  nodes : List Node
  queue : List Nat
  async_queue : List Nat
  updated_edges : List Edge
  updated_processors : List Nat
deriving DecidableEq

/-- Read node `i` (out of range: the inert `defaultNode`). -/
def getNode (s : PPState) (i : Nat) : Node :=
  s.nodes.getD i defaultNode

/-- Write node `i` (out of range: no-op, like `List.set`). -/
def setNode (s : PPState) (i : Nat) (n : Node) : PPState :=
  { s with nodes := s.nodes.set i n }

/-- Update node `i` in place. -/
def modifyNode (s : PPState) (i : Nat) (f : Node → Node) : PPState :=
  setNode s i (f (getNode s i))

/-- Node update applied by a successful `prepare` call
(PipelineExecutor.cpp:191-204): record the returned status, clear both pending
port lists (and advance the model's call counter). -/
def prepOkUpd (st : PStatus) (m : Node) : Node :=
  { m with prepare_calls := m.prepare_calls + 1,
           last_processor_status := some st,
           updated_input_ports := [], updated_output_ports := [] }

/-- Node update applied by a throwing `prepare` call
(PipelineExecutor.cpp:193-197): capture the exception (and advance the model's
call counter). -/
def prepFailUpd (e : Exc) (m : Node) : Node :=
  { m with prepare_calls := m.prepare_calls + 1, exception := some e }

/-- Node update setting the executor-side status (the `switch` of
PipelineExecutor.cpp:206-236). -/
def setStatusUpd (st : ExecStatus) (m : Node) : Node :=
  { m with status := st }

/-- Node update clearing the self-reported dirty port lists after the drain
(PipelineExecutor.cpp:262-263). -/
def clearPostUpd (m : Node) : Node :=
  { m with post_updated_input_ports := [], post_updated_output_ports := [] }

/-- Model bookkeeping: advance the expand-call counter standing for the
processor's private state. -/
def bumpExpandUpd (m : Node) : Node :=
  { m with expand_calls := m.expand_calls + 1 }

/-- Node update applied by a throwing `expandPipeline()` call
(PipelineExecutor.cpp:81-85): capture the exception. -/
def expFailUpd (e : Exc) (m : Node) : Node :=
  { m with exception := some e }

/-- Push the elements of `l` onto the stack `st` iterating `l` in reverse
order (the `rbegin`/`rend` loops of `prepareProcessor`): the first element of
`l` ends on top. -/
def pushReversed (l : List Edge) (st : List Edge) : List Edge :=
  l.foldr (fun e acc => e :: acc) st

theorem pushReversed_eq_append (l st : List Edge) : pushReversed l st = l ++ st := by
  induction l with
  | nil => rfl
  | cons e t ih => simp only [pushReversed, List.foldr] at ih ⊢; rw [ih, List.cons_append]

/-- A freshly created graph node for a newly appended processor: `Idle`, with
empty port and edge lists and no exception. -/
def freshNode : Node := {}

/-- Append edge `e` to a node's back-edge list (when `isBack`) or direct-edge
list. -/
def wireUpd (e : Edge) (isBack : Bool) (n : Node) : Node :=
  if isBack then { n with back_edges := n.back_edges ++ [e] }
  else { n with direct_edges := n.direct_edges ++ [e] }

/-- Apply one wiring entry `(i, e, isBack)`: append edge `e` to node `i`. -/
def addWire (nodes : List Node) (w : Nat × Edge × Bool) : List Node :=
  nodes.set w.1 (wireUpd w.2.1 w.2.2 (nodes.getD w.1 defaultNode))

/-- Modelled from the spec: `ExecutingGraph::expandPipeline` (the
`ExecutingGraph` implementation is not under `src/`).  Per §4.1 of the spec it
"appends new nodes, wires any new edges the just-expanded processor created,
returns the set of node indices whose edge set changed".  `wire` is the list of
new edges (decided by the new processors' port connections, outside the
executor); one node is appended per processor beyond the current node count;
the returned indices are those of appended nodes and of nodes that received a
new edge, in increasing order. -/
def graphExpand (wire : List (Nat × Edge × Bool)) (num_processors : Nat)
    (nodes : List Node) : List Node × List Nat :=
  let old := nodes.length
  let grown := nodes ++ List.replicate (num_processors - old) freshNode
  let wired := wire.foldl addWire grown
  let updated := (List.range num_processors).filter
    (fun i => old ≤ i || (wire.map Prod.fst).contains i)
  (wired, updated)

/-- Record the freshly added edge indices of a node as pending port updates
(PipelineExecutor.cpp:113-117).  `backSize`/`directSize` are the edge counts
recorded before the graph grew. -/
def stagePortsUpd (backSize directSize : Nat → Nat) (u : Nat) (n : Node) : Node :=
  { n with
    updated_input_ports :=
      n.updated_input_ports ++ List.range' (backSize u) (n.back_edges.length - backSize u),
    updated_output_ports :=
      n.updated_output_ports ++ List.range' (directSize u) (n.direct_edges.length - directSize u) }

/-- The per-updated-node loop body of `PipelineExecutor::expandPipeline`
(PipelineExecutor.cpp:104-124): record the freshly added edge indices as
pending port updates and re-stage `Idle` nodes as `Preparing`, pushing them on
the node work stack. -/
def expandStageNode (backSize directSize : Nat → Nat)
    (acc : List Node × List Nat) (u : Nat) : List Node × List Nat :=
  let n1 := stagePortsUpd backSize directSize u (acc.1.getD u defaultNode)
  if n1.status = .Idle then
    (acc.1.set u (setStatusUpd .Preparing n1), u :: acc.2)
  else
    (acc.1.set u n1, acc.2)

/-- Graph growth and re-staging in the success path of
`PipelineExecutor::expandPipeline` (PipelineExecutor.cpp:92-124): record the
per-node edge counts, grow the graph (`graphExpand`, modelled from the spec),
and run the staging loop over every node whose edge set changed, returning the
new node table and node work stack. -/
def expandStaged (beh : Behavior) (s0 : PPState) (pid call : Nat)
    (new_processors : List ProcMeta) : List Node × List Nat :=
  let ge := graphExpand (beh.wireFn pid call)
    (s0.processors ++ new_processors).length s0.nodes
  ge.2.foldl
    (expandStageNode (fun i => (s0.nodes.getD i defaultNode).back_edges.length)
                     (fun i => (s0.nodes.getD i defaultNode).direct_edges.length))
    (ge.1, s0.updated_processors)

/-- The success path of `PipelineExecutor::expandPipeline`
(PipelineExecutor.cpp:87-126): append the new processors to the flat list and
install the grown, re-staged graph. -/
def expandOk (beh : Behavior) (s0 : PPState) (pid call : Nat)
    (new_processors : List ProcMeta) : PPState :=
  { s0 with processors := s0.processors ++ new_processors,
            nodes := (expandStaged beh s0 pid call new_processors).1,
            updated_processors := (expandStaged beh s0 pid call new_processors).2 }

/-- `PipelineExecutor::expandPipeline` (PipelineExecutor.cpp:72-127).  Calls
the processor's `expandPipeline()` (the oracle `beh.expandFn`); on throw the
exception is captured on the node and `false` is returned with nothing else
changed; on success the graph grows and changed nodes are re-staged
(`expandOk`). -/
def expandPipeline (beh : Behavior) (s : PPState) (pid : Nat) : Bool × PPState :=
  let call := (getNode s pid).expand_calls
  let s0 := modifyNode s pid bumpExpandUpd
  match beh.expandFn pid call with
  | .error e => (false, modifyNode s0 pid (expFailUpd e))
  | .ok new_processors => (true, expandOk beh s0 pid call new_processors)

/-- The edge-processing branch of `PipelineExecutor::prepareProcessor`
(PipelineExecutor.cpp:139-168), applied to the popped edge `e`: unless the
destination node is `Finished`, record the edge as a pending output-port update
(backward edge) or input-port update, and, when the destination was `Idle`,
transition it to `Preparing` and push it onto the node work stack.  When the
destination was already `Preparing`/`Executing` the C++ calls the external
notification hook `onUpdatePorts()`, which has no effect on executor state. -/
def prepareEdgeStep (s : PPState) (e : Edge) : PPState :=
  let n := getNode s e.dst
  if n.status = .Finished then s
  else
    let n1 := if e.backward
      then { n with updated_output_ports := n.updated_output_ports ++ [e.output_port_number] }
      else { n with updated_input_ports := n.updated_input_ports ++ [e.input_port_number] }
    if n.status = .Idle then
      { setNode s e.dst { n1 with status := .Preparing } with
          updated_processors := e.dst :: s.updated_processors }
    else
      setNode s e.dst n1

/-- The outcome of one node-processing iteration of `prepareProcessor`:
either the loop continues with a new state, or the function returns `false`
(an exception was captured). -/
inductive StepResult where
  | next (s : PPState)
  | fail (s : PPState)
deriving DecidableEq

/-- The state carried by a `StepResult`. -/
def StepResult.state : StepResult → PPState
  | .next s => s
  | .fail s => s

/-- The post-`prepare` drain of `prepareProcessor` (PipelineExecutor.cpp:238-264),
run only when the status was not `ExpandPipeline`: push the node's self-reported
dirty output ports and then its dirty input ports onto the edge work stack, each
group iterated in reverse (so that, the stack being popped from the top, the
input-port edges come out first, then the output-port edges, both in their
original order), and clear both lists. -/
def drainPostPorts (s : PPState) (pid : Nat) : PPState :=
  let n := getNode s pid
  let edges1 := pushReversed n.post_updated_output_ports s.updated_edges
  let edges2 := pushReversed n.post_updated_input_ports edges1
  { modifyNode s pid clearPostUpd with updated_edges := edges2 }

/-- The `prepare` call of `prepareProcessor` (PipelineExecutor.cpp:187-204):
call the processor's `prepare`, handing it the node's accumulated pending
input/output port lists.  On throw, capture the exception on the node and
signal failure.  On normal return, record the returned status in
`last_processor_status` and clear both pending lists immediately, so that no
pending port notification is ever handed to `prepare` twice. -/
def prepareCall (beh : Behavior) (s : PPState) (pid : Nat) :
    Except PPState (PStatus × PPState) :=
  let n := getNode s pid
  match beh.prepareFn pid n.prepare_calls n.updated_input_ports n.updated_output_ports with
  | .error e =>
    .error (modifyNode s pid (prepFailUpd e))
  | .ok st =>
    .ok (st, modifyNode s pid (prepOkUpd st))

/-- The node-processing branch of `PipelineExecutor::prepareProcessor`
(PipelineExecutor.cpp:169-277), applied to the popped node `pid`:
run `prepareCall`; on throw return `false`; on success switch on the status
(`NeedData`/`PortFull` → `Idle`; `Finished` → `Finished`; `Ready` → `Executing`
and push on the ready queue; `Async` → `Executing` and push on the async queue;
`ExpandPipeline` → no status change), then either drain the self-reported dirty
ports (non-expanding statuses) or expand the pipeline and re-push the node. -/
def prepareNodeStep (beh : Behavior) (s : PPState) (pid : Nat) : StepResult :=
  match prepareCall beh s pid with
  | .error s1 => .fail s1
  | .ok (st, s1) =>
    match st with
    | .NeedData =>
      .next (drainPostPorts (modifyNode s1 pid (setStatusUpd .Idle)) pid)
    | .PortFull =>
      .next (drainPostPorts (modifyNode s1 pid (setStatusUpd .Idle)) pid)
    | .Finished =>
      .next (drainPostPorts (modifyNode s1 pid (setStatusUpd .Finished)) pid)
    | .Ready =>
      .next (drainPostPorts
        { modifyNode s1 pid (setStatusUpd .Executing)
          with queue := s1.queue ++ [pid] } pid)
    | .Async =>
      .next (drainPostPorts
        { modifyNode s1 pid (setStatusUpd .Executing)
          with async_queue := s1.async_queue ++ [pid] } pid)
    | .ExpandPipeline =>
      match expandPipeline beh s1 pid with
      | (false, s2) => .fail s2
      | (true, s2) =>
        .next { s2 with updated_processors := pid :: s2.updated_processors }

/-- Result of the `prepareProcessor` work loop: the C++ `bool` return value
(`ok` = `true`, `fail` = `false`), plus an out-of-fuel marker for the
shallow embedding (the C++ loop has no a-priori bound: a processor returning
`ExpandPipeline` forever never terminates). -/
inductive LoopResult where
  | ok (s : PPState)
  | fail (s : PPState)
  | outOfFuel (s : PPState)
deriving DecidableEq

/-- The state carried by a `LoopResult`. -/
def LoopResult.state : LoopResult → PPState
  | .ok s => s
  | .fail s => s
  | .outOfFuel s => s

/-- The work loop of `PipelineExecutor::prepareProcessor`
(PipelineExecutor.cpp:135-279): while either work stack is nonempty, pop a
node when the node stack is nonempty (the C++ takes the edge branch only when
`updated_processors` is empty), otherwise pop an edge.  `fuel` bounds the
number of iterations. -/
def prepareLoop (beh : Behavior) : Nat → PPState → LoopResult
  | 0, s =>
    if s.updated_processors = [] ∧ s.updated_edges = [] then .ok s else .outOfFuel s
  | fuel + 1, s =>
    match s.updated_processors, s.updated_edges with
    | [], [] => .ok s
    | [], e :: rest =>
      prepareLoop beh fuel (prepareEdgeStep { s with updated_edges := rest } e)
    | pid :: rest, _ =>
      match prepareNodeStep beh { s with updated_processors := rest } pid with
      | .fail s1 => .fail s1
      | .next s1 => prepareLoop beh fuel s1

/-- `PipelineExecutor::prepareProcessor` (PipelineExecutor.cpp:129-282): run
the work loop starting from fresh local stacks holding just `pid`. -/
def prepareProcessor (beh : Behavior) (fuel : Nat) (s : PPState) (pid : Nat) : LoopResult :=
  prepareLoop beh fuel { s with updated_processors := [pid], updated_edges := [] }

/-- The exception-slot invariant maintained by the executor: the node work
stack has no duplicate entries, every node on it has an empty exception slot
and is not `Idle` (it is `Preparing` when staged by an edge notification or by
expansion, `Executing` when it is the just-executed node `prepareProcessor`
starts from), and a node that has captured an exception is never `Idle`
(having failed while owned by a thread, it is stuck in its pre-failure status
and hence can never be pushed again, which is what makes the slot sticky). -/
def ExcInv (s : PPState) : Prop :=
  s.updated_processors.Nodup
  ∧ (∀ i ∈ s.updated_processors, i < s.nodes.length
      ∧ (getNode s i).exception = none ∧ (getNode s i).status ≠ ExecStatus.Idle)
  ∧ (∀ i, i < s.nodes.length →
      (getNode s i).exception ≠ none → (getNode s i).status ≠ ExecStatus.Idle)

instance (s : PPState) : Decidable (ExcInv s) := by
  unfold ExcInv
  infer_instance

/-- Executor-level state: the flat processor list and graph nodes, the
cancellation flag, whether the external process-list entry reports the query
killed, the per-thread sticky exception slots, and the task queue filled at
initialization. -/
structure ExecState where
  processors : List ProcMeta
  nodes : List Node
  cancelled : Bool := false
  killed : Bool := false
  is_execution_initialized : Bool := false
  thread_exceptions : List (Option Exc) := []
  task_queue : List Nat := []
deriving DecidableEq

/-- One index of the seeding loop of `addChildlessProcessorsToStack`
(PipelineExecutor.cpp:61-68): when node `proc` has no direct (downstream)
edges, push `proc` onto the stack and set the node's status to `Preparing`. -/
def childlessSeedStep (acc : List Nat × List Node) (proc : Nat) : List Nat × List Node :=
  if (acc.2.getD proc defaultNode).direct_edges = [] then
    (proc :: acc.1, acc.2.set proc
      { acc.2.getD proc defaultNode with status := .Preparing })
  else acc

/-- `PipelineExecutor::addChildlessProcessorsToStack` (PipelineExecutor.cpp:58-70):
for each processor index in increasing order, run `childlessSeedStep`.
Returns the stack (head = top) and the updated nodes. -/
def addChildlessProcessorsToStack (processors : List ProcMeta) (nodes : List Node)
    (stack : List Nat) : List Nat × List Node :=
  (List.range processors.length).foldl childlessSeedStep (stack, nodes)

/-- The "(N jobs)" description `dumpPipeline` writes into each processor
(PipelineExecutor.cpp:556-566; release build, so without the `#ifndef NDEBUG`
timing lines). -/
def jobsDescription (n : Node) : String :=
  "(" ++ toString n.num_executed_jobs ++ " jobs" ++ ")"

/-- Textual name of a node's last prepare status, for the dump. -/
def statusText : Option PStatus → String
  | none => "NotPrepared"
  | some .NeedData => "NeedData"
  | some .PortFull => "PortFull"
  | some .Finished => "Finished"
  | some .Ready => "Ready"
  | some .Async => "Async"
  | some .ExpandPipeline => "ExpandPipeline"

/-- Modelled from the spec: `printPipeline` (QueryPipeline/printPipeline.h is
not under `src/`).  Per §6 of the spec the diagnostics surface is "a textual
dump of the graph (per-node job count, optional timing breakdown) ... not a
stable machine-readable format"; the model renders one line per processor with
its name, its description, and its last prepare status. -/
def printPipelineStr (procs : List ProcMeta) (statuses : List (Option PStatus)) : String :=
  String.join (((List.range procs.length).map (fun i =>
    (procs.getD i defaultProc).name ++ " " ++ (procs.getD i defaultProc).description
      ++ " " ++ statusText (statuses.getD i none) ++ "\n")))

/-- One node of the description-overwriting loop of `dumpPipeline`
(PipelineExecutor.cpp:554-568): overwrite processor `i`'s description with the
"(N jobs)" string computed from node `i`. -/
def dumpDescStep (nodes : List Node) (ps : List ProcMeta) (i : Nat) : List ProcMeta :=
  ps.set i { ps.getD i defaultProc with
               description := jobsDescription (nodes.getD i defaultNode) }

/-- `PipelineExecutor::dumpPipeline` (PipelineExecutor.cpp:552-586).  Although
declared `const`, it mutates every processor: for each graph node it overwrites
the node's processor's description with the "(N jobs)" string (node `i`'s
processor being processor `i` of the flat list), then renders the pipeline.
Returns the dump string and the mutated state. -/
def dumpPipeline (st : ExecState) : String × ExecState :=
  let procs := (List.range st.nodes.length).foldl (dumpDescStep st.nodes) st.processors
  let statuses := st.nodes.map (fun n => n.last_processor_status)
  (printPipelineStr procs statuses, { st with processors := procs })

/-- `PipelineExecutor::finalizeExecution` (PipelineExecutor.cpp:352-373): if the
query was killed, throw `QUERY_WAS_CANCELLED`; if cancellation was requested,
return; otherwise, if some node's status is not `Finished`, throw a
`LOGICAL_ERROR` whose message is "Pipeline stuck. Current state:\n" followed by
the full pipeline dump. -/
def finalizeExecution (st : ExecState) : Except Exc ExecState :=
  if st.killed then
    .error { code := .QUERY_WAS_CANCELLED, message := "Query was cancelled" }
  else if st.cancelled then
    .ok st
  else if st.nodes.all (fun n => n.status = ExecStatus.Finished) then
    .ok st
  else
    .error { code := .LOGICAL_ERROR,
             message := "Pipeline stuck. Current state:\n" ++ (dumpPipeline st).1 }

/-- The first captured node exception, in node-index order
(the rethrow scan of `PipelineExecutor::execute`, PipelineExecutor.cpp:309-311). -/
def firstNodeException (nodes : List Node) : Option Exc :=
  (nodes.filterMap (fun n => n.exception)).head?

/-- Modelled from the spec: `ExecutorTasks::rethrowFirstThreadException`
(ExecutorTasks is not under `src/`).  Per §3/§4.5 of the spec each thread
context holds a sticky first-exception slot; the first one over the thread
contexts, in index order, is rethrown. -/
def firstThreadException (th : List (Option Exc)) : Option Exc :=
  (th.filterMap id).head?

/-- The tail of `PipelineExecutor::execute` (PipelineExecutor.cpp:299-325) after
`executeImpl` has returned and all worker threads have stopped: rethrow the
first captured node exception if any, else the first captured thread exception,
else run `finalizeExecution`.  `st` is the executor state left by
`executeImpl`. -/
def executeRethrow (st : ExecState) : Except Exc ExecState :=
  match firstNodeException st.nodes with
  | some e => .error e
  | none =>
    match firstThreadException st.thread_exceptions with
    | some e => .error e
    | none => finalizeExecution st

/-- Result of `PipelineExecutor::initializeExecution`: success (with the final
executor state and the final `prepareProcessor` state, whose ready queue has
been moved into the task queue), a thrown exception, or out of fuel. -/
inductive InitResult where
  | ok (st : ExecState) (p : PPState)
  | err (e : Exc) (p : PPState)
  | outOfFuel (p : PPState)
deriving DecidableEq

/-- The `LOGICAL_ERROR` thrown by `initializeExecution` when a node reports
`Async` before any work has happened (PipelineExecutor.cpp:477-478). -/
def asyncBeforeWorkError (procName : String) : Exc :=
  { code := .LOGICAL_ERROR,
    message := "Async is only possible after work() call. Processor " ++ procName }

/-- The seeding loop of `PipelineExecutor::initializeExecution`
(PipelineExecutor.cpp:469-479): pop each seeded node, run `prepareProcessor` on
it (its `bool` result is discarded, as in the C++), and throw whenever the
async queue is nonempty afterwards.  The ready queue and async queue persist
across iterations. -/
def initLoop (beh : Behavior) (fuel : Nat) (st : ExecState) :
    List Nat → PPState → InitResult
  | [], p =>
    .ok { st with
          processors := p.processors
          nodes := p.nodes
          is_execution_initialized := true
          task_queue := p.queue } p
  | proc :: rest, p =>
    match prepareProcessor beh fuel p proc with
    | .outOfFuel p1 => .outOfFuel p1
    | .ok p1 =>
      if p1.async_queue = [] then initLoop beh fuel st rest p1
      else .err (asyncBeforeWorkError
        ((p1.processors.getD (p1.async_queue.headD 0) defaultProc).name)) p1
    | .fail p1 =>
      if p1.async_queue = [] then initLoop beh fuel st rest p1
      else .err (asyncBeforeWorkError
        ((p1.processors.getD (p1.async_queue.headD 0) defaultProc).name)) p1

/-- `PipelineExecutor::initializeExecution` (PipelineExecutor.cpp:456-482):
seed the stack with the childless nodes, run the seeding loop, and on success
fill the task queue with the accumulated ready queue. -/
def initializeExecution (beh : Behavior) (fuel : Nat) (st : ExecState) : InitResult :=
  let seeded := addChildlessProcessorsToStack st.processors st.nodes []
  initLoop beh fuel st seeded.1
    { processors := st.processors, nodes := seeded.2,
      queue := [], async_queue := [], updated_edges := [], updated_processors := [] }

/-! ## Generic list access lemmas -/

theorem getD_set_self {α : Type} (l : List α) (i : Nat) (a d : α) (h : i < l.length) :
    (l.set i a).getD i d = a := by
  simp [List.getD_eq_getElem?_getD, List.getElem?_set_eq_of_lt a h]

theorem getD_set_ne {α : Type} (l : List α) {i j : Nat} (a d : α) (h : i ≠ j) :
    (l.set i a).getD j d = l.getD j d := by
  simp [List.getD_eq_getElem?_getD, List.getElem?_set_ne h]

/-! ## Seeding of childless nodes -/

/-- Characterization of the seeding fold of `addChildlessProcessorsToStack`
over the first `n` indices: the stack receives exactly the childless indices
among `0..n-1`, pushed in increasing order, and exactly those nodes have their
status set to `Preparing`, all other nodes being untouched. -/
theorem childlessSeed_fold_spec (nodes : List Node) (stack : List Nat) :
    ∀ n, n ≤ nodes.length →
      ((List.range n).foldl childlessSeedStep (stack, nodes)).1
        = ((List.range n).filter
            (fun i => decide ((nodes.getD i defaultNode).direct_edges = []))).reverse ++ stack
      ∧ ((List.range n).foldl childlessSeedStep (stack, nodes)).2.length = nodes.length
      ∧ ∀ i, ((List.range n).foldl childlessSeedStep (stack, nodes)).2.getD i defaultNode
          = if i < n ∧ (nodes.getD i defaultNode).direct_edges = []
            then { nodes.getD i defaultNode with status := ExecStatus.Preparing }
            else nodes.getD i defaultNode := by
  intro n
  induction n with
  | zero =>
    intro _
    refine ⟨by simp, by simp, ?_⟩
    intro i; simp
  | succ n ih =>
    intro hn
    have hnlt : n < nodes.length := hn
    obtain ⟨h1, h2, h3⟩ := ih (Nat.le_of_succ_le hn)
    have hiff : ∀ i, i ≠ n →
        ((i < n ∧ (nodes.getD i defaultNode).direct_edges = [])
          ↔ (i < n + 1 ∧ (nodes.getD i defaultNode).direct_edges = [])) := by
      intro i hi
      constructor
      · rintro ⟨ha, hb⟩; exact ⟨Nat.lt_succ_of_lt ha, hb⟩
      · rintro ⟨ha, hb⟩
        exact ⟨Nat.lt_of_le_of_ne (Nat.le_of_lt_succ ha) hi, hb⟩
    simp only [List.range_succ, List.foldl_append, List.foldl_cons, List.foldl_nil]
    set r := (List.range n).foldl childlessSeedStep (stack, nodes) with hr
    have hrn : r.2.getD n defaultNode = nodes.getD n defaultNode := by
      rw [h3 n]; simp
    by_cases hc : (nodes.getD n defaultNode).direct_edges = []
    · have hstep : childlessSeedStep r n
          = (n :: r.1, r.2.set n
              { nodes.getD n defaultNode with status := ExecStatus.Preparing }) := by
        rw [childlessSeedStep, hrn, if_pos hc]
      rw [hstep]
      have hfil : List.filter
          (fun i => decide ((nodes.getD i defaultNode).direct_edges = [])) [n] = [n] := by
        simpa using hc
      refine ⟨?_, ?_, ?_⟩
      · rw [List.filter_append, hfil, List.reverse_append, h1]
        simp
      · simpa [List.length_set] using h2
      · intro i
        by_cases hi : i = n
        · subst hi
          rw [getD_set_self _ _ _ _ (by rw [h2]; exact hnlt)]
          rw [if_pos ⟨Nat.lt_succ_self i, hc⟩]
        · rw [getD_set_ne _ _ _ (fun he => hi he.symm), h3 i]
          by_cases hcnd : i < n ∧ (nodes.getD i defaultNode).direct_edges = []
          · rw [if_pos hcnd, if_pos ((hiff i hi).mp hcnd)]
          · rw [if_neg hcnd, if_neg (fun hx => hcnd ((hiff i hi).mpr hx))]
    · have hstep : childlessSeedStep r n = r := by
        rw [childlessSeedStep, hrn, if_neg hc]
      rw [hstep]
      have hfil : List.filter
          (fun i => decide ((nodes.getD i defaultNode).direct_edges = [])) [n] = [] := by
        simpa using hc
      refine ⟨?_, h2, ?_⟩
      · rw [List.filter_append, hfil, List.append_nil, h1]
      · intro i
        rw [h3 i]
        by_cases hi : i = n
        · subst hi
          have hnot : ¬ (i < i ∧ (nodes.getD i defaultNode).direct_edges = []) := by
            rintro ⟨ha, _⟩; exact Nat.lt_irrefl i ha
          have hnot1 : ¬ (i < i + 1 ∧ (nodes.getD i defaultNode).direct_edges = []) := by
            rintro ⟨_, hb⟩; exact hc hb
          rw [if_neg hnot, if_neg hnot1]
        · by_cases hcnd : i < n ∧ (nodes.getD i defaultNode).direct_edges = []
          · rw [if_pos hcnd, if_pos ((hiff i hi).mp hcnd)]
          · rw [if_neg hcnd, if_neg (fun hx => hcnd ((hiff i hi).mpr hx))]

/-- C8: at graph-build time `addChildlessProcessorsToStack` seeds the initial
ready stack with exactly the node indices whose `direct_edges` list is empty,
pushed in increasing index order (the stack list has its top first, hence the
`reverse`), sets each such node's status to `Preparing`, and neither pushes nor
changes in any way a node that has at least one direct edge. -/
theorem claim_C8 (processors : List ProcMeta) (nodes : List Node)
    (hlen : processors.length = nodes.length) :
    (addChildlessProcessorsToStack processors nodes []).1
      = ((List.range processors.length).filter
          (fun i => decide ((nodes.getD i defaultNode).direct_edges = []))).reverse
    ∧ (addChildlessProcessorsToStack processors nodes []).2.length = nodes.length
    ∧ ∀ i, (addChildlessProcessorsToStack processors nodes []).2.getD i defaultNode
        = if i < processors.length ∧ (nodes.getD i defaultNode).direct_edges = []
          then { nodes.getD i defaultNode with status := ExecStatus.Preparing }
          else nodes.getD i defaultNode := by
  obtain ⟨h1, h2, h3⟩ :=
    childlessSeed_fold_spec nodes [] processors.length (le_of_eq hlen)
  exact ⟨by rw [addChildlessProcessorsToStack, h1, List.append_nil],
         by rw [addChildlessProcessorsToStack, h2],
         fun i => by rw [addChildlessProcessorsToStack, h3 i]⟩

/-- Witness for C8 on a concrete two-node graph: node 0 has a direct edge to
node 1, node 1 is childless; only node 1 is seeded. -/
theorem claim_C8_witness :
    (addChildlessProcessorsToStack
        [⟨"source", ""⟩, ⟨"sink", ""⟩]
        [{ direct_edges := [⟨1, false, 0, 0⟩] }, {}] []).1
      = ((List.range 2).filter
          (fun i => decide (([({ direct_edges := [⟨1, false, 0, 0⟩] } : Node), {}].getD
              i defaultNode).direct_edges = []))).reverse :=
  (claim_C8 [⟨"source", ""⟩, ⟨"sink", ""⟩]
    [{ direct_edges := [⟨1, false, 0, 0⟩] }, {}] (by decide)).1

/-! ## State access lemmas -/

theorem getNode_modifyNode_self (s : PPState) (pid : Nat) (f : Node → Node)
    (h : pid < s.nodes.length) : getNode (modifyNode s pid f) pid = f (getNode s pid) := by
  unfold getNode modifyNode setNode getNode
  exact getD_set_self _ _ _ _ h

theorem getNode_modifyNode_ne (s : PPState) {pid j : Nat} (f : Node → Node)
    (h : pid ≠ j) : getNode (modifyNode s pid f) j = getNode s j := by
  unfold getNode modifyNode setNode getNode
  exact getD_set_ne _ _ _ h

theorem modifyNode_processors (s : PPState) (pid : Nat) (f : Node → Node) :
    (modifyNode s pid f).processors = s.processors := rfl

theorem modifyNode_queue (s : PPState) (pid : Nat) (f : Node → Node) :
    (modifyNode s pid f).queue = s.queue := rfl

theorem modifyNode_async (s : PPState) (pid : Nat) (f : Node → Node) :
    (modifyNode s pid f).async_queue = s.async_queue := rfl

theorem modifyNode_edges (s : PPState) (pid : Nat) (f : Node → Node) :
    (modifyNode s pid f).updated_edges = s.updated_edges := rfl

theorem modifyNode_stack (s : PPState) (pid : Nat) (f : Node → Node) :
    (modifyNode s pid f).updated_processors = s.updated_processors := rfl

theorem modifyNode_length (s : PPState) (pid : Nat) (f : Node → Node) :
    (modifyNode s pid f).nodes.length = s.nodes.length := by
  simp [modifyNode, setNode]

/-! ## C9: a throwing expandPipeline() leaves the executor structures untouched -/

/-- C9: when the processor's `expandPipeline()` call throws,
`PipelineExecutor::expandPipeline` captures the exception on the node and
returns `false` before performing any mutation: the flat processors list, the
work stacks and queues, and every node's edge lists, pending-port lists and
status are exactly as they were; only the failing node's exception slot (and
the model's call counter standing for the processor's private state) change. -/
theorem claim_C9 (beh : Behavior) (s : PPState) (pid : Nat) (e : Exc)
    (hpid : pid < s.nodes.length)
    (h : beh.expandFn pid (getNode s pid).expand_calls = .error e) :
    (expandPipeline beh s pid).1 = false
    ∧ (expandPipeline beh s pid).2.processors = s.processors
    ∧ (expandPipeline beh s pid).2.queue = s.queue
    ∧ (expandPipeline beh s pid).2.async_queue = s.async_queue
    ∧ (expandPipeline beh s pid).2.updated_edges = s.updated_edges
    ∧ (expandPipeline beh s pid).2.updated_processors = s.updated_processors
    ∧ (∀ i, (getNode (expandPipeline beh s pid).2 i).status = (getNode s i).status)
    ∧ (∀ i, (getNode (expandPipeline beh s pid).2 i).direct_edges = (getNode s i).direct_edges)
    ∧ (∀ i, (getNode (expandPipeline beh s pid).2 i).back_edges = (getNode s i).back_edges)
    ∧ (∀ i, (getNode (expandPipeline beh s pid).2 i).updated_input_ports
          = (getNode s i).updated_input_ports)
    ∧ (∀ i, (getNode (expandPipeline beh s pid).2 i).updated_output_ports
          = (getNode s i).updated_output_ports)
    ∧ (∀ i, (getNode (expandPipeline beh s pid).2 i).post_updated_input_ports
          = (getNode s i).post_updated_input_ports)
    ∧ (∀ i, (getNode (expandPipeline beh s pid).2 i).post_updated_output_ports
          = (getNode s i).post_updated_output_ports)
    ∧ (getNode (expandPipeline beh s pid).2 pid).exception = some e
    ∧ (∀ i, i ≠ pid → (getNode (expandPipeline beh s pid).2 i).exception
          = (getNode s i).exception) := by
  have hred : expandPipeline beh s pid
      = (false, modifyNode (modifyNode s pid bumpExpandUpd) pid (expFailUpd e)) := by
    rw [expandPipeline, h]
  have hlen1 : pid < (modifyNode s pid bumpExpandUpd).nodes.length := by
    rw [modifyNode_length]; exact hpid
  have hproj : ∀ i, getNode (expandPipeline beh s pid).2 i
      = if i = pid
        then { getNode s pid with expand_calls := (getNode s pid).expand_calls + 1,
                                  exception := some e }
        else getNode s i := by
    intro i
    by_cases hi : i = pid
    · subst hi
      rw [hred]
      simp only [getNode_modifyNode_self _ _ _ hlen1, getNode_modifyNode_self _ _ _ hpid]
      simp [expFailUpd, bumpExpandUpd]
    · rw [hred]
      rw [getNode_modifyNode_ne _ _ (fun hx : pid = i => hi hx.symm),
          getNode_modifyNode_ne _ _ (fun hx : pid = i => hi hx.symm), if_neg hi]
  refine ⟨by rw [hred], by rw [hred]; rfl, by rw [hred]; rfl, by rw [hred]; rfl,
          by rw [hred]; rfl, by rw [hred]; rfl, ?_, ?_, ?_, ?_, ?_, ?_, ?_, ?_, ?_⟩
  · intro i; rw [hproj i]; by_cases hi : i = pid <;> simp [hi]
  · intro i; rw [hproj i]; by_cases hi : i = pid <;> simp [hi]
  · intro i; rw [hproj i]; by_cases hi : i = pid <;> simp [hi]
  · intro i; rw [hproj i]; by_cases hi : i = pid <;> simp [hi]
  · intro i; rw [hproj i]; by_cases hi : i = pid <;> simp [hi]
  · intro i; rw [hproj i]; by_cases hi : i = pid <;> simp [hi]
  · intro i; rw [hproj i]; by_cases hi : i = pid <;> simp [hi]
  · rw [hproj pid]; simp
  · intro i hi; rw [hproj i]; simp [hi]

/-- Witness for C9 on a one-node state whose processor's `expandPipeline()`
throws. -/
theorem claim_C9_witness :
    (expandPipeline
      { prepareFn := fun _ _ _ _ => .ok .Ready,
        expandFn := fun _ _ => .error ⟨.PROC_ERROR, "boom"⟩,
        wireFn := fun _ _ => [] }
      { processors := [⟨"p", ""⟩], nodes := [{ status := .Preparing }],
        queue := [], async_queue := [], updated_edges := [], updated_processors := [] }
      0).1 = false :=
  (claim_C9
    { prepareFn := fun _ _ _ _ => .ok .Ready,
      expandFn := fun _ _ => .error ⟨.PROC_ERROR, "boom"⟩,
      wireFn := fun _ _ => [] }
    { processors := [⟨"p", ""⟩], nodes := [{ status := .Preparing }],
      queue := [], async_queue := [], updated_edges := [], updated_processors := [] }
    0 ⟨.PROC_ERROR, "boom"⟩ (by decide) rfl).1

/-! ## First-exception scans -/

theorem getD_mem {α : Type} (l : List α) (i : Nat) (d : α) (h : i < l.length) :
    l.getD i d ∈ l := by
  rw [List.getD_eq_getElem?_getD, List.getElem?_eq_getElem h]
  exact List.getElem_mem h

theorem head_filterMap_first {α β : Type} (f : α → Option β) (d : α) :
    ∀ (l : List α) (i : Nat) (b : β), i < l.length → f (l.getD i d) = some b →
      (∀ j, j < i → f (l.getD j d) = none) → (l.filterMap f).head? = some b := by
  intro l
  induction l with
  | nil => intro i b hi; exact absurd hi (Nat.not_lt_zero i)
  | cons a t ih =>
    intro i b hi hf hnone
    cases i with
    | zero =>
      have ha : f a = some b := hf
      rw [List.filterMap_cons, ha]
      rfl
    | succ i =>
      have h0 : f a = none := hnone 0 (Nat.succ_pos i)
      rw [List.filterMap_cons, h0]
      exact ih i b (Nat.lt_of_succ_lt_succ hi) hf
        (fun j hj => hnone (j + 1) (Nat.succ_lt_succ hj))

theorem filterMap_eq_nil_of_all_none {α β : Type} (f : α → Option β) (d : α) :
    ∀ (l : List α), (∀ i, i < l.length → f (l.getD i d) = none) → l.filterMap f = [] := by
  intro l
  induction l with
  | nil => intro _; rfl
  | cons a t ih =>
    intro h
    have h0 : f a = none := h 0 (Nat.succ_pos t.length)
    rw [List.filterMap_cons, h0]
    exact ih (fun i hi => h (i + 1) (Nat.succ_lt_succ hi))

/-! ## C3: the "Pipeline stuck" error -/

/-- C3: when the query was not killed and cancellation was not requested, and
some node's status is not `Finished`, `finalizeExecution` throws the
`LOGICAL_ERROR` whose message is "Pipeline stuck. Current state:\n" followed by
the full pipeline dump; when every node is `Finished`, or when cancellation was
requested, it never throws a `LOGICAL_ERROR` (the kill path throws
`QUERY_WAS_CANCELLED`, a different error). -/
theorem claim_C3 (st : ExecState) :
    (st.killed = false → st.cancelled = false →
      (∃ i, i < st.nodes.length ∧ (st.nodes.getD i defaultNode).status ≠ ExecStatus.Finished) →
      finalizeExecution st
        = .error { code := .LOGICAL_ERROR,
                   message := "Pipeline stuck. Current state:\n" ++ (dumpPipeline st).1 })
    ∧ ((st.nodes.all (fun n => n.status = ExecStatus.Finished) = true ∨ st.cancelled = true) →
      ∀ m, finalizeExecution st ≠ .error { code := .LOGICAL_ERROR, message := m }) := by
  constructor
  · intro hk hc hex
    have hall : ¬ (st.nodes.all (fun n => n.status = ExecStatus.Finished) = true) := by
      intro hall
      obtain ⟨i, hi, hne⟩ := hex
      have hmem := getD_mem st.nodes i defaultNode hi
      have := List.all_eq_true.mp hall _ hmem
      exact hne (by simpa using this)
    rw [finalizeExecution, hk, hc]
    simp only [Bool.false_eq_true, if_false]
    rw [if_neg hall]
  · intro hfin m
    rw [finalizeExecution]
    by_cases hk : st.killed = true
    · rw [if_pos hk]
      intro hcontra
      have := (Except.error.injEq _ _).mp hcontra
      have hcode := congrArg Exc.code this
      simp at hcode
    · rw [if_neg hk]
      rcases hfin with hall | hcanc
      · by_cases hc : st.cancelled = true
        · rw [if_pos hc]; intro hcontra; cases hcontra
        · rw [if_neg hc, if_pos hall]; intro hcontra; cases hcontra
      · rw [if_pos hcanc]; intro hcontra; cases hcontra

/-- Witness for C3: a one-node state whose node is still `Preparing`, not
killed, not cancelled: the "Pipeline stuck" error is thrown; and a finished,
cancelled state never yields a `LOGICAL_ERROR`. -/
theorem claim_C3_witness :
    finalizeExecution { processors := [⟨"p", ""⟩], nodes := [{ status := .Preparing }] }
      = .error { code := .LOGICAL_ERROR,
                 message := "Pipeline stuck. Current state:\n"
                   ++ (dumpPipeline { processors := [⟨"p", ""⟩],
                                      nodes := [{ status := .Preparing }] }).1 }
    ∧ ∀ m, finalizeExecution
        { processors := [⟨"p", ""⟩], nodes := [{ status := .Preparing }], cancelled := true }
        ≠ .error { code := .LOGICAL_ERROR, message := m } :=
  ⟨(claim_C3 { processors := [⟨"p", ""⟩], nodes := [{ status := .Preparing }] }).1
      rfl rfl ⟨0, by decide, by decide⟩,
   (claim_C3 { processors := [⟨"p", ""⟩], nodes := [{ status := .Preparing }],
               cancelled := true }).2 (Or.inr rfl)⟩

/-! ## C4: exception rethrow from execute -/

/-- C4: after the worker threads have stopped, the rethrow scan of `execute`
surfaces exactly one exception, the first one found: the captured exception of
the least-index node that has one, and, when no node captured an exception,
the first captured thread-context exception in thread order. -/
theorem claim_C4 (st : ExecState) :
    (∀ i e, i < st.nodes.length → (st.nodes.getD i defaultNode).exception = some e →
      (∀ j, j < i → (st.nodes.getD j defaultNode).exception = none) →
      executeRethrow st = .error e)
    ∧ (∀ k e, (∀ i, i < st.nodes.length → (st.nodes.getD i defaultNode).exception = none) →
      k < st.thread_exceptions.length → st.thread_exceptions.getD k none = some e →
      (∀ j, j < k → st.thread_exceptions.getD j none = none) →
      executeRethrow st = .error e) := by
  constructor
  · intro i e hi hsome hnone
    have hfirst : firstNodeException st.nodes = some e := by
      rw [firstNodeException]
      exact head_filterMap_first (fun n => n.exception) defaultNode st.nodes i e hi hsome hnone
    rw [executeRethrow, hfirst]
  · intro k e hnodes hk hsome hnone
    have hfirst : firstNodeException st.nodes = none := by
      rw [firstNodeException,
          filterMap_eq_nil_of_all_none (fun n => n.exception) defaultNode st.nodes hnodes]
      rfl
    have hth : firstThreadException st.thread_exceptions = some e :=
      head_filterMap_first id none st.thread_exceptions k e hk hsome hnone
    rw [executeRethrow, hfirst, hth]

/-- Witness for C4: among two captured node exceptions, the one on the
least-index node is the one rethrown. -/
theorem claim_C4_witness :
    executeRethrow
      { processors := [⟨"a", ""⟩, ⟨"b", ""⟩],
        nodes := [{ exception := some ⟨.PROC_ERROR, "first"⟩ },
                  { exception := some ⟨.PROC_ERROR, "second"⟩ }] }
      = .error ⟨.PROC_ERROR, "first"⟩ :=
  (claim_C4 _).1 0 ⟨.PROC_ERROR, "first"⟩ (by decide) (by decide)
    (fun j hj => absurd hj (Nat.not_lt_zero j))

/-! ## C10: dumpPipeline overwrites every processor description -/

/-- Characterization of the description-overwriting fold of `dumpPipeline` over
the first `n` node indices: processor `i` gets the "(N jobs)" description of
node `i` exactly when `i < n` (and exists), other entries are untouched. -/
theorem dumpDesc_fold_spec (nodes : List Node) (procs : List ProcMeta) :
    ∀ n,
      ((List.range n).foldl (dumpDescStep nodes) procs).length = procs.length
      ∧ ∀ i, ((List.range n).foldl (dumpDescStep nodes) procs).getD i defaultProc
          = if i < n ∧ i < procs.length
            then { procs.getD i defaultProc with
                     description := jobsDescription (nodes.getD i defaultNode) }
            else procs.getD i defaultProc := by
  intro n
  induction n with
  | zero =>
    refine ⟨rfl, ?_⟩
    intro i; simp
  | succ n ih =>
    obtain ⟨h1, h2⟩ := ih
    simp only [List.range_succ, List.foldl_append, List.foldl_cons, List.foldl_nil]
    set r := (List.range n).foldl (dumpDescStep nodes) procs with hr
    have hrn : r.getD n defaultProc = procs.getD n defaultProc := by
      rw [h2 n]; simp
    refine ⟨by rw [dumpDescStep, List.length_set, h1], ?_⟩
    intro i
    by_cases hi : i = n
    · subst hi
      by_cases hlt : i < procs.length
      · rw [dumpDescStep, hrn, getD_set_self _ _ _ _ (by rw [h1]; exact hlt)]
        rw [if_pos ⟨Nat.lt_succ_self i, hlt⟩]
      · have hset : r.set i { r.getD i defaultProc with
            description := jobsDescription (nodes.getD i defaultNode) } = r := by
          apply List.set_eq_of_length_le
          rw [h1]; exact Nat.le_of_not_lt hlt
        rw [dumpDescStep, hset, h2 i]
        have hn1 : ¬ (i < i ∧ i < procs.length) := fun hx => Nat.lt_irrefl i hx.1
        have hn2 : ¬ (i < i + 1 ∧ i < procs.length) := fun hx => hlt hx.2
        rw [if_neg hn1, if_neg hn2]
    · rw [dumpDescStep, getD_set_ne _ _ _ (fun hx => hi hx.symm), h2 i]
      have hiff : (i < n ∧ i < procs.length) ↔ (i < n + 1 ∧ i < procs.length) := by
        constructor
        · rintro ⟨ha, hb⟩; exact ⟨Nat.lt_succ_of_lt ha, hb⟩
        · rintro ⟨ha, hb⟩; exact ⟨Nat.lt_of_le_of_ne (Nat.le_of_lt_succ ha) hi, hb⟩
      by_cases hcnd : i < n ∧ i < procs.length
      · rw [if_pos hcnd, if_pos (hiff.mp hcnd)]
      · rw [if_neg hcnd, if_neg (fun hx => hcnd (hiff.mpr hx))]

/-- C10: `dumpPipeline`, although only a diagnostic, mutates every processor:
for every node index, the corresponding processor's description after the call
is the "(N jobs)" string built from that node's executed-job count (so the
job count appears inside the description), and on a concrete state the
processor list is genuinely changed (the call is not side-effect-free).
The release build is modelled; the debug build additionally embeds the timing
breakdown in the same overwritten string. -/
theorem claim_C10 (st : ExecState) (i : Nat)
    (hi : i < st.nodes.length) (hp : i < st.processors.length) :
    (((dumpPipeline st).2.processors.getD i defaultProc).description
        = jobsDescription (st.nodes.getD i defaultNode)
      ∧ ∃ a b, ((dumpPipeline st).2.processors.getD i defaultProc).description
          = a ++ toString (st.nodes.getD i defaultNode).num_executed_jobs ++ b)
    ∧ (dumpPipeline { processors := [⟨"p", "untouched"⟩], nodes := [{}] }).2.processors
        ≠ ({ processors := [⟨"p", "untouched"⟩], nodes := [{}] } : ExecState).processors := by
  obtain ⟨h1, h2⟩ := dumpDesc_fold_spec st.nodes st.processors st.nodes.length
  have hdesc : ((dumpPipeline st).2.processors.getD i defaultProc).description
      = jobsDescription (st.nodes.getD i defaultNode) := by
    show (((List.range st.nodes.length).foldl (dumpDescStep st.nodes)
        st.processors).getD i defaultProc).description = _
    rw [h2 i, if_pos ⟨hi, hp⟩]
  refine ⟨⟨hdesc, ⟨"(", " jobs" ++ ")", ?_⟩⟩, ?_⟩
  · rw [hdesc, jobsDescription, String.append_assoc]
  · decide

/-- Witness for C10 on a concrete one-node state: the description becomes
"(5 jobs)". -/
theorem claim_C10_witness :
    (((dumpPipeline { processors := [⟨"p", "old"⟩],
                      nodes := [{ num_executed_jobs := 5 }] }).2.processors.getD
        0 defaultProc).description
      = jobsDescription ({ num_executed_jobs := 5 } : Node)) :=
  ((claim_C10 { processors := [⟨"p", "old"⟩], nodes := [{ num_executed_jobs := 5 }] }
      0 (by decide) (by decide)).1).1

/-! ## Drain lemmas -/

theorem getNode_drain (s : PPState) (pid i : Nat) :
    getNode (drainPostPorts s pid) i = getNode (modifyNode s pid clearPostUpd) i := rfl

theorem drain_edges (s : PPState) (pid : Nat) :
    (drainPostPorts s pid).updated_edges
      = (getNode s pid).post_updated_input_ports
          ++ ((getNode s pid).post_updated_output_ports ++ s.updated_edges) := by
  simp [drainPostPorts, pushReversed_eq_append]

theorem drain_queue (s : PPState) (pid : Nat) : (drainPostPorts s pid).queue = s.queue := rfl

theorem drain_async (s : PPState) (pid : Nat) :
    (drainPostPorts s pid).async_queue = s.async_queue := rfl

theorem drain_stack (s : PPState) (pid : Nat) :
    (drainPostPorts s pid).updated_processors = s.updated_processors := rfl

theorem drain_processors (s : PPState) (pid : Nat) :
    (drainPostPorts s pid).processors = s.processors := rfl

theorem drain_length (s : PPState) (pid : Nat) :
    (drainPostPorts s pid).nodes.length = s.nodes.length := by
  have h : (drainPostPorts s pid).nodes = (modifyNode s pid clearPostUpd).nodes := rfl
  rw [h, modifyNode_length]

/-! ## C5: prepare gets the accumulated lists, which are cleared right after -/

/-- C5: every `prepare` call made by `prepareProcessor` goes through
`prepareCall`, which hands the processor exactly the node's accumulated
`updated_input_ports` and `updated_output_ports` (the hypothesis `h` is the
call as made, on exactly those two lists); when the call returns status `st`
without throwing, in the resulting state both pending lists of the node are
empty and `last_processor_status` records `st`, while no other node changed.
Hence no pending port notification is ever handed to `prepare` twice. -/
theorem claim_C5 (beh : Behavior) (s : PPState) (pid : Nat) (st : PStatus)
    (hpid : pid < s.nodes.length)
    (h : beh.prepareFn pid (getNode s pid).prepare_calls (getNode s pid).updated_input_ports
          (getNode s pid).updated_output_ports = .ok st) :
    ∃ s1, prepareCall beh s pid = .ok (st, s1)
      ∧ (getNode s1 pid).updated_input_ports = []
      ∧ (getNode s1 pid).updated_output_ports = []
      ∧ (getNode s1 pid).last_processor_status = some st
      ∧ ∀ i, i ≠ pid → getNode s1 i = getNode s i := by
  have hred : prepareCall beh s pid
      = .ok (st, modifyNode s pid (prepOkUpd st)) := by
    simp only [prepareCall]
    rw [h]
  refine ⟨_, hred, ?_, ?_, ?_, ?_⟩
  · rw [getNode_modifyNode_self _ _ _ hpid]; rfl
  · rw [getNode_modifyNode_self _ _ _ hpid]; rfl
  · rw [getNode_modifyNode_self _ _ _ hpid]; rfl
  · intro i hi
    exact getNode_modifyNode_ne _ _ (fun hx => hi hx.symm)

/-- Witness for C5 on a concrete one-node state with accumulated pending
ports. -/
theorem claim_C5_witness :
    ∃ s1, prepareCall
        { prepareFn := fun _ _ _ _ => .ok .NeedData,
          expandFn := fun _ _ => .ok [], wireFn := fun _ _ => [] }
        { processors := [⟨"p", ""⟩],
          nodes := [{ status := .Preparing, updated_input_ports := [0, 1],
                      updated_output_ports := [2] }],
          queue := [], async_queue := [], updated_edges := [], updated_processors := [] }
        0 = .ok (.NeedData, s1)
      ∧ (getNode s1 0).updated_input_ports = []
      ∧ (getNode s1 0).updated_output_ports = []
      ∧ (getNode s1 0).last_processor_status = some .NeedData
      ∧ ∀ i, i ≠ 0 → getNode s1 i = getNode
          { processors := [⟨"p", ""⟩],
            nodes := [{ status := .Preparing, updated_input_ports := [0, 1],
                        updated_output_ports := [2] }],
            queue := [], async_queue := [], updated_edges := [], updated_processors := [] } i :=
  claim_C5
    { prepareFn := fun _ _ _ _ => .ok .NeedData,
      expandFn := fun _ _ => .ok [], wireFn := fun _ _ => [] }
    { processors := [⟨"p", ""⟩],
      nodes := [{ status := .Preparing, updated_input_ports := [0, 1],
                  updated_output_ports := [2] }],
      queue := [], async_queue := [], updated_edges := [], updated_processors := [] }
    0 .NeedData (by decide) rfl

/-! ## C2: drain order of self-reported dirty ports -/

theorem drain_post_spec (s X : PPState) (pid : Nat) (v : ExecStatus) (st : PStatus)
    (hpid : pid < s.nodes.length)
    (hXnodes : X.nodes
      = (modifyNode (modifyNode s pid (prepOkUpd st)) pid (setStatusUpd v)).nodes)
    (hXedges : X.updated_edges = s.updated_edges) :
    (drainPostPorts X pid).updated_edges
      = (getNode s pid).post_updated_input_ports
          ++ ((getNode s pid).post_updated_output_ports ++ s.updated_edges)
    ∧ (getNode (drainPostPorts X pid) pid).post_updated_input_ports = []
    ∧ (getNode (drainPostPorts X pid) pid).post_updated_output_ports = [] := by
  have hlen1 : pid < (modifyNode s pid (prepOkUpd st)).nodes.length := by
    rw [modifyNode_length]; exact hpid
  have hXn : getNode X pid = setStatusUpd v (prepOkUpd st (getNode s pid)) := by
    show X.nodes.getD pid defaultNode = _
    rw [hXnodes]
    show getNode (modifyNode (modifyNode s pid (prepOkUpd st)) pid (setStatusUpd v)) pid = _
    rw [getNode_modifyNode_self _ _ _ hlen1, getNode_modifyNode_self _ _ _ hpid]
  have hXlen : pid < X.nodes.length := by
    rw [hXnodes, modifyNode_length, modifyNode_length]; exact hpid
  refine ⟨?_, ?_, ?_⟩
  · rw [drain_edges, hXn, hXedges]
    simp [setStatusUpd, prepOkUpd]
  · rw [getNode_drain, getNode_modifyNode_self _ _ _ hXlen]
    simp [clearPostUpd]
  · rw [getNode_drain, getNode_modifyNode_self _ _ _ hXlen]
    simp [clearPostUpd]

/-- C2: when a prepare call returns a non-expanding status without throwing,
the node's self-reported dirty ports are pushed onto the edge work stack in
reverse, output-port edges first and then input-port edges, so that the
resulting stack (popped from the head) delivers every input-port edge before
every output-port edge, each group in its original order, ahead of the
previously stacked edges; both self-reported lists are cleared. -/
theorem claim_C2 (beh : Behavior) (s : PPState) (pid : Nat) (st : PStatus)
    (hpid : pid < s.nodes.length)
    (h : beh.prepareFn pid (getNode s pid).prepare_calls (getNode s pid).updated_input_ports
          (getNode s pid).updated_output_ports = .ok st)
    (hne : st ≠ PStatus.ExpandPipeline) :
    ∃ s', prepareNodeStep beh s pid = .next s'
      ∧ s'.updated_edges
          = (getNode s pid).post_updated_input_ports
              ++ ((getNode s pid).post_updated_output_ports ++ s.updated_edges)
      ∧ (getNode s' pid).post_updated_input_ports = []
      ∧ (getNode s' pid).post_updated_output_ports = [] := by
  have hred : prepareCall beh s pid = .ok (st, modifyNode s pid (prepOkUpd st)) := by
    simp only [prepareCall]; rw [h]
  cases st with
  | ExpandPipeline => exact absurd rfl hne
  | NeedData =>
    have hstep : prepareNodeStep beh s pid
        = .next (drainPostPorts (modifyNode (modifyNode s pid (prepOkUpd .NeedData)) pid
            (setStatusUpd .Idle)) pid) := by
      simp only [prepareNodeStep, hred]
    exact ⟨_, hstep,
      (drain_post_spec s _ pid .Idle .NeedData hpid rfl rfl).1,
      (drain_post_spec s _ pid .Idle .NeedData hpid rfl rfl).2.1,
      (drain_post_spec s _ pid .Idle .NeedData hpid rfl rfl).2.2⟩
  | PortFull =>
    have hstep : prepareNodeStep beh s pid
        = .next (drainPostPorts (modifyNode (modifyNode s pid (prepOkUpd .PortFull)) pid
            (setStatusUpd .Idle)) pid) := by
      simp only [prepareNodeStep, hred]
    exact ⟨_, hstep,
      (drain_post_spec s _ pid .Idle .PortFull hpid rfl rfl).1,
      (drain_post_spec s _ pid .Idle .PortFull hpid rfl rfl).2.1,
      (drain_post_spec s _ pid .Idle .PortFull hpid rfl rfl).2.2⟩
  | Finished =>
    have hstep : prepareNodeStep beh s pid
        = .next (drainPostPorts (modifyNode (modifyNode s pid (prepOkUpd .Finished)) pid
            (setStatusUpd .Finished)) pid) := by
      simp only [prepareNodeStep, hred]
    exact ⟨_, hstep,
      (drain_post_spec s _ pid .Finished .Finished hpid rfl rfl).1,
      (drain_post_spec s _ pid .Finished .Finished hpid rfl rfl).2.1,
      (drain_post_spec s _ pid .Finished .Finished hpid rfl rfl).2.2⟩
  | Ready =>
    have hstep : prepareNodeStep beh s pid
        = .next (drainPostPorts
            { modifyNode (modifyNode s pid (prepOkUpd .Ready)) pid (setStatusUpd .Executing)
              with queue := (modifyNode s pid (prepOkUpd .Ready)).queue ++ [pid] } pid) := by
      simp only [prepareNodeStep, hred]
    exact ⟨_, hstep,
      (drain_post_spec s _ pid .Executing .Ready hpid rfl rfl).1,
      (drain_post_spec s _ pid .Executing .Ready hpid rfl rfl).2.1,
      (drain_post_spec s _ pid .Executing .Ready hpid rfl rfl).2.2⟩
  | Async =>
    have hstep : prepareNodeStep beh s pid
        = .next (drainPostPorts
            { modifyNode (modifyNode s pid (prepOkUpd .Async)) pid (setStatusUpd .Executing)
              with async_queue := (modifyNode s pid (prepOkUpd .Async)).async_queue ++ [pid] }
            pid) := by
      simp only [prepareNodeStep, hred]
    exact ⟨_, hstep,
      (drain_post_spec s _ pid .Executing .Async hpid rfl rfl).1,
      (drain_post_spec s _ pid .Executing .Async hpid rfl rfl).2.1,
      (drain_post_spec s _ pid .Executing .Async hpid rfl rfl).2.2⟩

/-- Witness for C2: a node with one dirty input-port edge and one dirty
output-port edge; after the step, the input edge is on top of the stack. -/
theorem claim_C2_witness :
    ∃ s', prepareNodeStep
        { prepareFn := fun _ _ _ _ => .ok .NeedData,
          expandFn := fun _ _ => .ok [], wireFn := fun _ _ => [] }
        { processors := [⟨"p", ""⟩],
          nodes := [{ status := .Preparing,
                      post_updated_input_ports := [⟨1, false, 0, 0⟩],
                      post_updated_output_ports := [⟨2, false, 0, 1⟩] }],
          queue := [], async_queue := [], updated_edges := [], updated_processors := [] }
        0 = .next s'
      ∧ s'.updated_edges = [⟨1, false, 0, 0⟩] ++ ([⟨2, false, 0, 1⟩] ++ [])
      ∧ (getNode s' 0).post_updated_input_ports = []
      ∧ (getNode s' 0).post_updated_output_ports = [] :=
  claim_C2
    { prepareFn := fun _ _ _ _ => .ok .NeedData,
      expandFn := fun _ _ => .ok [], wireFn := fun _ _ => [] }
    { processors := [⟨"p", ""⟩],
      nodes := [{ status := .Preparing,
                  post_updated_input_ports := [⟨1, false, 0, 0⟩],
                  post_updated_output_ports := [⟨2, false, 0, 1⟩] }],
      queue := [], async_queue := [], updated_edges := [], updated_processors := [] }
    0 .NeedData (by decide) rfl (by decide)

/-! ## Expansion lemmas -/

theorem getD_append_left {α : Type} (l l' : List α) (i : Nat) (d : α) (h : i < l.length) :
    (l ++ l').getD i d = l.getD i d := by
  rw [List.getD_eq_getElem?_getD, List.getD_eq_getElem?_getD, List.getElem?_append_left h]

theorem foldl_addWire_length (wire : List (Nat × Edge × Bool)) :
    ∀ ns : List Node, (wire.foldl addWire ns).length = ns.length := by
  induction wire with
  | nil => intro ns; rfl
  | cons w t ih =>
    intro ns
    rw [List.foldl_cons, ih, addWire, List.length_set]

theorem foldl_addWire_proj {α : Type} (f : Node → α)
    (hf : ∀ (e : Edge) (b : Bool) (n : Node), f (wireUpd e b n) = f n)
    (wire : List (Nat × Edge × Bool)) :
    ∀ (ns : List Node) (i : Nat),
      f ((wire.foldl addWire ns).getD i defaultNode) = f (ns.getD i defaultNode) := by
  induction wire with
  | nil => intro ns i; rfl
  | cons w t ih =>
    intro ns i
    rw [List.foldl_cons, ih]
    by_cases hw : w.1 = i
    · subst hw
      by_cases hl : w.1 < ns.length
      · rw [addWire, getD_set_self _ _ _ _ hl, hf]
      · rw [addWire, List.set_eq_of_length_le (Nat.le_of_not_lt hl)]
    · rw [addWire, getD_set_ne _ _ _ hw]

theorem graphExpand_length (w : List (Nat × Edge × Bool)) (np : Nat) (ns : List Node)
    (h : ns.length ≤ np) : (graphExpand w np ns).1.length = np := by
  show (w.foldl addWire (ns ++ List.replicate (np - ns.length) freshNode)).length = np
  rw [foldl_addWire_length, List.length_append, List.length_replicate]
  omega

theorem graphExpand_proj {α : Type} (f : Node → α)
    (hf : ∀ (e : Edge) (b : Bool) (n : Node), f (wireUpd e b n) = f n)
    (w : List (Nat × Edge × Bool)) (np : Nat) (ns : List Node) (i : Nat)
    (hi : i < ns.length) :
    f ((graphExpand w np ns).1.getD i defaultNode) = f (ns.getD i defaultNode) := by
  show f ((w.foldl addWire
      (ns ++ List.replicate (np - ns.length) freshNode)).getD i defaultNode) = _
  rw [foldl_addWire_proj f hf, getD_append_left _ _ _ _ hi]

theorem stage_fold_length (bs ds : Nat → Nat) (l : List Nat) :
    ∀ acc : List Node × List Nat,
      (l.foldl (expandStageNode bs ds) acc).1.length = acc.1.length := by
  induction l with
  | nil => intro acc; rfl
  | cons u t ih =>
    intro acc
    rw [List.foldl_cons, ih]
    simp only [expandStageNode]
    by_cases hc : (stagePortsUpd bs ds u (acc.1.getD u defaultNode)).status = ExecStatus.Idle
    · rw [if_pos hc]
      exact List.length_set _ _ _
    · rw [if_neg hc]
      exact List.length_set _ _ _

theorem stage_fold_status (bs ds : Nat → Nat) (l : List Nat) :
    ∀ (acc : List Node × List Nat) (i : Nat),
      (acc.1.getD i defaultNode).status ≠ ExecStatus.Idle →
      ((l.foldl (expandStageNode bs ds) acc).1.getD i defaultNode).status
        = (acc.1.getD i defaultNode).status := by
  induction l with
  | nil => intro acc i _; rfl
  | cons u t ih =>
    intro acc i hi
    rw [List.foldl_cons]
    have hstep : ((expandStageNode bs ds acc u).1.getD i defaultNode).status
        = (acc.1.getD i defaultNode).status := by
      simp only [expandStageNode]
      by_cases hu : u = i
      · subst hu
        have hst : (stagePortsUpd bs ds u (acc.1.getD u defaultNode)).status
            = (acc.1.getD u defaultNode).status := rfl
        by_cases hc : (stagePortsUpd bs ds u (acc.1.getD u defaultNode)).status
            = ExecStatus.Idle
        · exact absurd (hst ▸ hc) hi
        · rw [if_neg hc]
          by_cases hl : u < acc.1.length
          · rw [getD_set_self _ _ _ _ hl]
            exact hst
          · rw [List.set_eq_of_length_le (Nat.le_of_not_lt hl)]
      · by_cases hc : (stagePortsUpd bs ds u (acc.1.getD u defaultNode)).status
            = ExecStatus.Idle
        · rw [if_pos hc]
          exact congrArg Node.status (getD_set_ne _ _ _ hu)
        · rw [if_neg hc]
          exact congrArg Node.status (getD_set_ne _ _ _ hu)
    rw [ih (expandStageNode bs ds acc u) i (by rw [hstep]; exact hi), hstep]

theorem stage_fold_stack (bs ds : Nat → Nat) (l : List Nat) :
    ∀ acc : List Node × List Nat,
      ∃ l2, (l.foldl (expandStageNode bs ds) acc).2 = l2 ++ acc.2 := by
  induction l with
  | nil => intro acc; exact ⟨[], rfl⟩
  | cons u t ih =>
    intro acc
    rw [List.foldl_cons]
    obtain ⟨l2, hl2⟩ := ih (expandStageNode bs ds acc u)
    have h2 : (expandStageNode bs ds acc u).2 = u :: acc.2
        ∨ (expandStageNode bs ds acc u).2 = acc.2 := by
      simp only [expandStageNode]
      by_cases hc : (stagePortsUpd bs ds u (acc.1.getD u defaultNode)).status
          = ExecStatus.Idle
      · rw [if_pos hc]
        exact Or.inl rfl
      · rw [if_neg hc]
        exact Or.inr rfl
    rcases h2 with h2 | h2
    · refine ⟨l2 ++ [u], ?_⟩
      rw [hl2, h2, List.append_assoc, List.singleton_append]
    · refine ⟨l2, ?_⟩
      rw [hl2, h2]

theorem expandStaged_def (beh : Behavior) (s0 : PPState) (pid call : Nat)
    (ps : List ProcMeta) :
    expandStaged beh s0 pid call ps
      = (graphExpand (beh.wireFn pid call) (s0.processors ++ ps).length s0.nodes).2.foldl
          (expandStageNode (fun i => (s0.nodes.getD i defaultNode).back_edges.length)
                           (fun i => (s0.nodes.getD i defaultNode).direct_edges.length))
          ((graphExpand (beh.wireFn pid call) (s0.processors ++ ps).length s0.nodes).1,
            s0.updated_processors) := rfl

theorem expandOk_length (beh : Behavior) (s0 : PPState) (pid call : Nat)
    (ps : List ProcMeta) (hlen : s0.processors.length = s0.nodes.length) :
    (expandOk beh s0 pid call ps).nodes.length = s0.nodes.length + ps.length := by
  show (expandStaged beh s0 pid call ps).1.length = _
  rw [expandStaged_def, stage_fold_length, graphExpand_length]
  · rw [List.length_append, hlen]
  · rw [List.length_append, hlen]
    omega

theorem expandOk_status (beh : Behavior) (s0 : PPState) (pid call : Nat)
    (ps : List ProcMeta) (i : Nat) (hi : i < s0.nodes.length)
    (hne : (getNode s0 i).status ≠ ExecStatus.Idle) :
    (getNode (expandOk beh s0 pid call ps) i).status = (getNode s0 i).status := by
  have hwf : ∀ (e : Edge) (b : Bool) (n : Node), (wireUpd e b n).status = n.status := by
    intro e b n
    cases b <;> simp [wireUpd]
  have hg : ((graphExpand (beh.wireFn pid call) (s0.processors ++ ps).length
      s0.nodes).1.getD i defaultNode).status = (s0.nodes.getD i defaultNode).status :=
    graphExpand_proj Node.status hwf _ _ _ _ hi
  have hne2 : (((graphExpand (beh.wireFn pid call) (s0.processors ++ ps).length
      s0.nodes).1, s0.updated_processors).1.getD i defaultNode).status
      ≠ ExecStatus.Idle := by
    show ((graphExpand (beh.wireFn pid call) (s0.processors ++ ps).length
        s0.nodes).1.getD i defaultNode).status ≠ ExecStatus.Idle
    rw [hg]
    exact hne
  show ((expandStaged beh s0 pid call ps).1.getD i defaultNode).status = _
  rw [expandStaged_def, stage_fold_status _ _ _ _ i hne2]
  exact hg

theorem expandOk_stack (beh : Behavior) (s0 : PPState) (pid call : Nat)
    (ps : List ProcMeta) :
    ∃ l, (expandOk beh s0 pid call ps).updated_processors
      = l ++ s0.updated_processors := by
  show ∃ l, (expandStaged beh s0 pid call ps).2 = l ++ s0.updated_processors
  rw [expandStaged_def]
  obtain ⟨l2, h⟩ := stage_fold_stack
    (fun i => (s0.nodes.getD i defaultNode).back_edges.length)
    (fun i => (s0.nodes.getD i defaultNode).direct_edges.length)
    (graphExpand (beh.wireFn pid call) (s0.processors ++ ps).length s0.nodes).2
    ((graphExpand (beh.wireFn pid call) (s0.processors ++ ps).length s0.nodes).1,
      s0.updated_processors)
  exact ⟨l2, h⟩

theorem expandPipeline_ok (beh : Behavior) (s : PPState) (pid : Nat)
    (ps : List ProcMeta)
    (h : beh.expandFn pid (getNode s pid).expand_calls = .ok ps) :
    expandPipeline beh s pid
      = (true, expandOk beh (modifyNode s pid bumpExpandUpd) pid
          (getNode s pid).expand_calls ps) := by
  simp only [expandPipeline]
  rw [h]

/-! ## C1: the status transition table of prepareProcessor -/

/-- C1 (amended): for a node whose `prepare` call returns without throwing,
the new status is determined by the returned processor status:
`NeedData`/`PortFull` set the node `Idle`; `Finished` sets the terminal
`Finished`; `Ready` sets `Executing` and pushes the node onto the ready queue;
`Async` sets `Executing` and pushes the node onto the async queue;
`ExpandPipeline` leaves the status unchanged (still `Preparing`) and,
*provided the processor's `expandPipeline()` call also returns without
throwing*, grows the graph by the new processors and re-pushes the node on
top of the node work stack to be prepared again.  (When `expandPipeline()`
throws, the status is still unchanged but the graph does not grow and the
node is not re-pushed: see the counterexample.) -/
theorem claim_C1 (beh : Behavior) (s : PPState) (pid : Nat) (st : PStatus)
    (hpid : pid < s.nodes.length)
    (hlen : s.processors.length = s.nodes.length)
    (hstat : (getNode s pid).status = ExecStatus.Preparing)
    (h : beh.prepareFn pid (getNode s pid).prepare_calls (getNode s pid).updated_input_ports
          (getNode s pid).updated_output_ports = .ok st) :
    ((st = .NeedData ∨ st = .PortFull) → ∃ s', prepareNodeStep beh s pid = .next s'
        ∧ (getNode s' pid).status = .Idle
        ∧ s'.queue = s.queue ∧ s'.async_queue = s.async_queue)
    ∧ (st = .Finished → ∃ s', prepareNodeStep beh s pid = .next s'
        ∧ (getNode s' pid).status = .Finished
        ∧ s'.queue = s.queue ∧ s'.async_queue = s.async_queue)
    ∧ (st = .Ready → ∃ s', prepareNodeStep beh s pid = .next s'
        ∧ (getNode s' pid).status = .Executing
        ∧ s'.queue = s.queue ++ [pid] ∧ s'.async_queue = s.async_queue)
    ∧ (st = .Async → ∃ s', prepareNodeStep beh s pid = .next s'
        ∧ (getNode s' pid).status = .Executing
        ∧ s'.async_queue = s.async_queue ++ [pid] ∧ s'.queue = s.queue)
    ∧ (st = .ExpandPipeline → ∀ ps,
        beh.expandFn pid (getNode s pid).expand_calls = .ok ps →
        ∃ s', prepareNodeStep beh s pid = .next s'
          ∧ (getNode s' pid).status = .Preparing
          ∧ (∃ l, s'.updated_processors = pid :: l)
          ∧ s'.nodes.length = s.nodes.length + ps.length
          ∧ s'.queue = s.queue ∧ s'.async_queue = s.async_queue) := by
  have hlen1 : ∀ st' : PStatus, pid < (modifyNode s pid (prepOkUpd st')).nodes.length := by
    intro st'
    rw [modifyNode_length]
    exact hpid
  have hXst : ∀ (st' : PStatus) (v : ExecStatus),
      (getNode (drainPostPorts (modifyNode (modifyNode s pid (prepOkUpd st')) pid
        (setStatusUpd v)) pid) pid).status = v := by
    intro st' v
    have hXlen : pid < (modifyNode (modifyNode s pid (prepOkUpd st')) pid
        (setStatusUpd v)).nodes.length := by
      rw [modifyNode_length, modifyNode_length]
      exact hpid
    rw [getNode_drain, getNode_modifyNode_self _ _ _ hXlen,
        getNode_modifyNode_self _ _ _ (hlen1 st')]
    simp [clearPostUpd, setStatusUpd]
  refine ⟨?_, ?_, ?_, ?_, ?_⟩
  · rintro (rfl | rfl)
    · have hred : prepareCall beh s pid
          = .ok (.NeedData, modifyNode s pid (prepOkUpd .NeedData)) := by
        simp only [prepareCall]
        rw [h]
      exact ⟨_, by simp only [prepareNodeStep, hred], hXst .NeedData .Idle, rfl, rfl⟩
    · have hred : prepareCall beh s pid
          = .ok (.PortFull, modifyNode s pid (prepOkUpd .PortFull)) := by
        simp only [prepareCall]
        rw [h]
      exact ⟨_, by simp only [prepareNodeStep, hred], hXst .PortFull .Idle, rfl, rfl⟩
  · rintro rfl
    have hred : prepareCall beh s pid
        = .ok (.Finished, modifyNode s pid (prepOkUpd .Finished)) := by
      simp only [prepareCall]
      rw [h]
    exact ⟨_, by simp only [prepareNodeStep, hred], hXst .Finished .Finished, rfl, rfl⟩
  · rintro rfl
    have hred : prepareCall beh s pid
        = .ok (.Ready, modifyNode s pid (prepOkUpd .Ready)) := by
      simp only [prepareCall]
      rw [h]
    have hstep : prepareNodeStep beh s pid
        = .next (drainPostPorts
            { modifyNode (modifyNode s pid (prepOkUpd .Ready)) pid (setStatusUpd .Executing)
              with queue := (modifyNode s pid (prepOkUpd .Ready)).queue ++ [pid] } pid) := by
      simp only [prepareNodeStep, hred]
    refine ⟨_, hstep, ?_, rfl, rfl⟩
    have hXlen : pid < ({ modifyNode (modifyNode s pid (prepOkUpd .Ready)) pid
        (setStatusUpd .Executing)
        with queue := (modifyNode s pid (prepOkUpd .Ready)).queue ++ [pid] }
          : PPState).nodes.length := by
      show pid < (modifyNode (modifyNode s pid (prepOkUpd .Ready)) pid
        (setStatusUpd .Executing)).nodes.length
      rw [modifyNode_length, modifyNode_length]
      exact hpid
    rw [getNode_drain, getNode_modifyNode_self _ _ _ hXlen]
    show (clearPostUpd (getNode (modifyNode (modifyNode s pid (prepOkUpd .Ready)) pid
      (setStatusUpd .Executing)) pid)).status = ExecStatus.Executing
    rw [getNode_modifyNode_self _ _ _ (hlen1 .Ready)]
    simp [clearPostUpd, setStatusUpd]
  · rintro rfl
    have hred : prepareCall beh s pid
        = .ok (.Async, modifyNode s pid (prepOkUpd .Async)) := by
      simp only [prepareCall]
      rw [h]
    have hstep : prepareNodeStep beh s pid
        = .next (drainPostPorts
            { modifyNode (modifyNode s pid (prepOkUpd .Async)) pid (setStatusUpd .Executing)
              with async_queue := (modifyNode s pid (prepOkUpd .Async)).async_queue ++ [pid] }
            pid) := by
      simp only [prepareNodeStep, hred]
    refine ⟨_, hstep, ?_, rfl, rfl⟩
    have hXlen : pid < ({ modifyNode (modifyNode s pid (prepOkUpd .Async)) pid
        (setStatusUpd .Executing)
        with async_queue := (modifyNode s pid (prepOkUpd .Async)).async_queue ++ [pid] }
          : PPState).nodes.length := by
      show pid < (modifyNode (modifyNode s pid (prepOkUpd .Async)) pid
        (setStatusUpd .Executing)).nodes.length
      rw [modifyNode_length, modifyNode_length]
      exact hpid
    rw [getNode_drain, getNode_modifyNode_self _ _ _ hXlen]
    show (clearPostUpd (getNode (modifyNode (modifyNode s pid (prepOkUpd .Async)) pid
      (setStatusUpd .Executing)) pid)).status = ExecStatus.Executing
    rw [getNode_modifyNode_self _ _ _ (hlen1 .Async)]
    simp [clearPostUpd, setStatusUpd]
  · rintro rfl ps hexp
    have hred : prepareCall beh s pid
        = .ok (.ExpandPipeline, modifyNode s pid (prepOkUpd .ExpandPipeline)) := by
      simp only [prepareCall]
      rw [h]
    have hcall : (getNode (modifyNode s pid (prepOkUpd .ExpandPipeline)) pid).expand_calls
        = (getNode s pid).expand_calls := by
      rw [getNode_modifyNode_self _ _ _ hpid]
      rfl
    have hexp1 : beh.expandFn pid
        (getNode (modifyNode s pid (prepOkUpd .ExpandPipeline)) pid).expand_calls
        = .ok ps := by
      rw [hcall]
      exact hexp
    have hexpok := expandPipeline_ok beh (modifyNode s pid (prepOkUpd .ExpandPipeline))
      pid ps hexp1
    have hstep : prepareNodeStep beh s pid
        = .next { expandOk beh
            (modifyNode (modifyNode s pid (prepOkUpd .ExpandPipeline)) pid bumpExpandUpd)
            pid (getNode (modifyNode s pid (prepOkUpd .ExpandPipeline)) pid).expand_calls ps
            with updated_processors := pid :: (expandOk beh
              (modifyNode (modifyNode s pid (prepOkUpd .ExpandPipeline)) pid bumpExpandUpd)
              pid (getNode (modifyNode s pid (prepOkUpd .ExpandPipeline)) pid).expand_calls
              ps).updated_processors } := by
      simp only [prepareNodeStep, hred, hexpok]
    have h0len : pid < (modifyNode (modifyNode s pid (prepOkUpd .ExpandPipeline)) pid
        bumpExpandUpd).nodes.length := by
      rw [modifyNode_length, modifyNode_length]
      exact hpid
    have hst0 : (getNode (modifyNode (modifyNode s pid (prepOkUpd .ExpandPipeline)) pid
        bumpExpandUpd) pid).status = ExecStatus.Preparing := by
      rw [getNode_modifyNode_self _ _ _ (hlen1 .ExpandPipeline),
          getNode_modifyNode_self _ _ _ hpid]
      simpa [bumpExpandUpd, prepOkUpd] using hstat
    refine ⟨_, hstep, ?_, ⟨_, rfl⟩, ?_, rfl, rfl⟩
    · show (getNode (expandOk beh
          (modifyNode (modifyNode s pid (prepOkUpd .ExpandPipeline)) pid bumpExpandUpd)
          pid (getNode (modifyNode s pid (prepOkUpd .ExpandPipeline)) pid).expand_calls ps)
          pid).status = ExecStatus.Preparing
      rw [expandOk_status _ _ _ _ _ _ h0len (by rw [hst0]; exact fun hx => by cases hx)]
      exact hst0
    · show (expandOk beh
          (modifyNode (modifyNode s pid (prepOkUpd .ExpandPipeline)) pid bumpExpandUpd)
          pid (getNode (modifyNode s pid (prepOkUpd .ExpandPipeline)) pid).expand_calls
          ps).nodes.length = s.nodes.length + ps.length
      rw [expandOk_length]
      · rw [modifyNode_length, modifyNode_length]
      · show s.processors.length
          = (modifyNode (modifyNode s pid (prepOkUpd .ExpandPipeline)) pid
              bumpExpandUpd).nodes.length
        rw [modifyNode_length, modifyNode_length]
        exact hlen

/-- Counterexample to C1 as stated: a node whose `prepare` returns
`ExpandPipeline` without throwing but whose subsequent `expandPipeline()` call
throws.  The claim says the graph grows and the node is re-pushed; instead the
pass fails, the graph does not grow and the node work stack stays empty (the
status, as the table says, is indeed unchanged). -/
theorem claim_C1_counterexample :
    (prepareNodeStep
        { prepareFn := fun _ _ _ _ => .ok .ExpandPipeline,
          expandFn := fun _ _ => .error ⟨.PROC_ERROR, "expand failed"⟩,
          wireFn := fun _ _ => [] }
        { processors := [⟨"p", ""⟩], nodes := [{ status := .Preparing }],
          queue := [], async_queue := [], updated_edges := [], updated_processors := [] }
        0).state.nodes.length = 1
    ∧ (prepareNodeStep
        { prepareFn := fun _ _ _ _ => .ok .ExpandPipeline,
          expandFn := fun _ _ => .error ⟨.PROC_ERROR, "expand failed"⟩,
          wireFn := fun _ _ => [] }
        { processors := [⟨"p", ""⟩], nodes := [{ status := .Preparing }],
          queue := [], async_queue := [], updated_edges := [], updated_processors := [] }
        0).state.updated_processors = []
    ∧ prepareNodeStep
        { prepareFn := fun _ _ _ _ => .ok .ExpandPipeline,
          expandFn := fun _ _ => .error ⟨.PROC_ERROR, "expand failed"⟩,
          wireFn := fun _ _ => [] }
        { processors := [⟨"p", ""⟩], nodes := [{ status := .Preparing }],
          queue := [], async_queue := [], updated_edges := [], updated_processors := [] }
        0
      = .fail ((prepareNodeStep
          { prepareFn := fun _ _ _ _ => .ok .ExpandPipeline,
            expandFn := fun _ _ => .error ⟨.PROC_ERROR, "expand failed"⟩,
            wireFn := fun _ _ => [] }
          { processors := [⟨"p", ""⟩], nodes := [{ status := .Preparing }],
            queue := [], async_queue := [], updated_edges := [], updated_processors := [] }
          0).state) := by
  refine ⟨?_, ?_, ?_⟩ <;> decide

/-- Witness for C1 (amended) on a node whose `prepare` returns `Ready`: it
becomes `Executing` and goes onto the ready queue. -/
theorem claim_C1_witness :
    ∃ s', prepareNodeStep
        { prepareFn := fun _ _ _ _ => .ok .Ready,
          expandFn := fun _ _ => .ok [], wireFn := fun _ _ => [] }
        { processors := [⟨"p", ""⟩], nodes := [{ status := .Preparing }],
          queue := [], async_queue := [], updated_edges := [], updated_processors := [] }
        0 = .next s'
      ∧ (getNode s' 0).status = .Executing
      ∧ s'.queue = [] ++ [0] ∧ s'.async_queue = [] :=
  (claim_C1
    { prepareFn := fun _ _ _ _ => .ok .Ready,
      expandFn := fun _ _ => .ok [], wireFn := fun _ _ => [] }
    { processors := [⟨"p", ""⟩], nodes := [{ status := .Preparing }],
      queue := [], async_queue := [], updated_edges := [], updated_processors := [] }
    0 .Ready (by decide) (by decide) (by decide) rfl).2.2.1 rfl

/-! ## C7: Async before any work is a LOGICAL_ERROR -/

theorem initLoop_err (beh : Behavior) (fuel : Nat) (st : ExecState) :
    ∀ (stack : List Nat) (p : PPState) (e : Exc) (p' : PPState),
      initLoop beh fuel st stack p = .err e p' →
      e = asyncBeforeWorkError
          ((p'.processors.getD (p'.async_queue.headD 0) defaultProc).name)
      ∧ p'.async_queue ≠ [] := by
  intro stack
  induction stack with
  | nil =>
    intro p e p' hrun
    simp only [initLoop] at hrun
    cases hrun
  | cons proc rest ih =>
    intro p e p' hrun
    simp only [initLoop] at hrun
    cases hpp : prepareProcessor beh fuel p proc with
    | outOfFuel p1 =>
      rw [hpp] at hrun
      simp at hrun
    | ok p1 =>
      rw [hpp] at hrun
      simp only at hrun
      by_cases hq : p1.async_queue = []
      · rw [if_pos hq] at hrun
        exact ih p1 e p' hrun
      · rw [if_neg hq] at hrun
        injection hrun with h1 h2
        subst h2
        exact ⟨h1.symm, hq⟩
    | fail p1 =>
      rw [hpp] at hrun
      simp only at hrun
      by_cases hq : p1.async_queue = []
      · rw [if_pos hq] at hrun
        exact ih p1 e p' hrun
      · rw [if_neg hq] at hrun
        injection hrun with h1 h2
        subst h2
        exact ⟨h1.symm, hq⟩

theorem initLoop_ok (beh : Behavior) (fuel : Nat) (st : ExecState) :
    ∀ (stack : List Nat) (p : PPState) (st' : ExecState) (p' : PPState),
      p.async_queue = [] →
      initLoop beh fuel st stack p = .ok st' p' →
      p'.async_queue = []
      ∧ st' = { st with processors := p'.processors, nodes := p'.nodes,
                        is_execution_initialized := true, task_queue := p'.queue } := by
  intro stack
  induction stack with
  | nil =>
    intro p st' p' hq hrun
    simp only [initLoop] at hrun
    injection hrun with h1 h2
    subst h2
    exact ⟨hq, h1.symm⟩
  | cons proc rest ih =>
    intro p st' p' hq hrun
    simp only [initLoop] at hrun
    cases hpp : prepareProcessor beh fuel p proc with
    | outOfFuel p1 =>
      rw [hpp] at hrun
      simp at hrun
    | ok p1 =>
      rw [hpp] at hrun
      simp only at hrun
      by_cases hq1 : p1.async_queue = []
      · rw [if_pos hq1] at hrun
        exact ih p1 st' p' hq1 hrun
      · rw [if_neg hq1] at hrun
        simp at hrun
    | fail p1 =>
      rw [hpp] at hrun
      simp only at hrun
      by_cases hq1 : p1.async_queue = []
      · rw [if_pos hq1] at hrun
        exact ih p1 st' p' hq1 hrun
      · rw [if_neg hq1] at hrun
        simp at hrun

/-- C7: `initializeExecution` throws the `LOGICAL_ERROR`
"Async is only possible after work() call. Processor <name>" exactly when
preparing the seeded childless nodes put some node on the async queue (the
front async node names the processor), the async queue being nonempty at the
throw; otherwise initialization completes, leaves the async queue empty, marks
execution initialized, and fills the task queue with the accumulated ready
queue. -/
theorem claim_C7 (beh : Behavior) (fuel : Nat) (st : ExecState) :
    (∀ e p, initializeExecution beh fuel st = .err e p →
      e.code = .LOGICAL_ERROR
      ∧ p.async_queue ≠ []
      ∧ e.message = "Async is only possible after work() call. Processor "
          ++ (p.processors.getD (p.async_queue.headD 0) defaultProc).name)
    ∧ (∀ st' p, initializeExecution beh fuel st = .ok st' p →
      p.async_queue = []
      ∧ st'.task_queue = p.queue
      ∧ st'.nodes = p.nodes
      ∧ st'.is_execution_initialized = true) := by
  constructor
  · intro e p hrun
    obtain ⟨h1, h2⟩ := initLoop_err beh fuel st _ _ e p hrun
    subst h1
    exact ⟨rfl, h2, rfl⟩
  · intro st' p hrun
    obtain ⟨h1, h2⟩ := initLoop_ok beh fuel st _ _ st' p rfl hrun
    subst h2
    exact ⟨h1, rfl, rfl, rfl⟩

/-- Witness for C7: a single childless node whose processor immediately
reports `Finished`; initialization completes with an empty async queue. -/
theorem claim_C7_witness :
    (({ processors := [⟨"src", ""⟩],
        nodes := [{ status := .Finished, prepare_calls := 1,
                    last_processor_status := some .Finished }],
        queue := [], async_queue := [], updated_edges := [],
        updated_processors := [] } : PPState).async_queue = [])
    ∧ ({ processors := [⟨"src", ""⟩],
         nodes := [{ status := .Finished, prepare_calls := 1,
                     last_processor_status := some .Finished }],
         is_execution_initialized := true, task_queue := [] } : ExecState).task_queue
        = ({ processors := [⟨"src", ""⟩],
             nodes := [{ status := .Finished, prepare_calls := 1,
                         last_processor_status := some .Finished }],
             queue := [], async_queue := [], updated_edges := [],
             updated_processors := [] } : PPState).queue
    ∧ ({ processors := [⟨"src", ""⟩],
         nodes := [{ status := .Finished, prepare_calls := 1,
                     last_processor_status := some .Finished }],
         is_execution_initialized := true, task_queue := [] } : ExecState).nodes
        = ({ processors := [⟨"src", ""⟩],
             nodes := [{ status := .Finished, prepare_calls := 1,
                         last_processor_status := some .Finished }],
             queue := [], async_queue := [], updated_edges := [],
             updated_processors := [] } : PPState).nodes
    ∧ ({ processors := [⟨"src", ""⟩],
         nodes := [{ status := .Finished, prepare_calls := 1,
                     last_processor_status := some .Finished }],
         is_execution_initialized := true, task_queue := [] } : ExecState).is_execution_initialized
        = true :=
  (claim_C7
    { prepareFn := fun _ _ _ _ => .ok .Finished,
      expandFn := fun _ _ => .ok [], wireFn := fun _ _ => [] }
    4 { processors := [⟨"src", ""⟩], nodes := [{}] }).2
    { processors := [⟨"src", ""⟩],
      nodes := [{ status := .Finished, prepare_calls := 1,
                  last_processor_status := some .Finished }],
      is_execution_initialized := true, task_queue := [] }
    { processors := [⟨"src", ""⟩],
      nodes := [{ status := .Finished, prepare_calls := 1,
                  last_processor_status := some .Finished }],
      queue := [], async_queue := [], updated_edges := [], updated_processors := [] }
    (by decide)

/-! ## C6: the exception slot is sticky -/

theorem modifyNode_oob (s : PPState) (pid : Nat) (f : Node → Node)
    (h : ¬ pid < s.nodes.length) : (modifyNode s pid f).nodes = s.nodes := by
  show s.nodes.set pid _ = s.nodes
  exact List.set_eq_of_length_le (Nat.le_of_not_lt h)

theorem getNode_proj_modify {α : Type} (g : Node → α) (s : PPState) (pid : Nat)
    (f : Node → Node) (hf : ∀ n, g (f n) = g n) (i : Nat) :
    g (getNode (modifyNode s pid f) i) = g (getNode s i) := by
  by_cases hip : pid = i
  · subst hip
    by_cases hl : pid < s.nodes.length
    · rw [getNode_modifyNode_self _ _ _ hl, hf]
    · have hn : (modifyNode s pid f).nodes = s.nodes := modifyNode_oob s pid f hl
      show g ((modifyNode s pid f).nodes.getD pid defaultNode) = _
      rw [hn]
      rfl
  · rw [getNode_modifyNode_ne _ _ hip]

theorem getNode_setQueue (x : PPState) (q : List Nat) (i : Nat) :
    getNode { x with queue := q } i = getNode x i := rfl

theorem getNode_setAsync (x : PPState) (q : List Nat) (i : Nat) :
    getNode { x with async_queue := q } i = getNode x i := rfl

theorem getNode_setStack (x : PPState) (l : List Nat) (i : Nat) :
    getNode { x with updated_processors := l } i = getNode x i := rfl

/-- The edge-processing branch preserves the exception invariant and every
already-captured exception. -/
theorem prepareEdgeStep_spec (s : PPState) (e : Edge) (h : ExcInv s) :
    ExcInv (prepareEdgeStep s e)
    ∧ (∀ i ex, (getNode s i).exception = some ex →
        (getNode (prepareEdgeStep s e) i).exception = some ex)
    ∧ (prepareEdgeStep s e).nodes.length = s.nodes.length := by
  obtain ⟨hnd, hmem, hexc⟩ := h
  by_cases hfin : (getNode s e.dst).status = ExecStatus.Finished
  · have hid : prepareEdgeStep s e = s := by
      simp only [prepareEdgeStep]
      rw [if_pos hfin]
    rw [hid]
    exact ⟨⟨hnd, hmem, hexc⟩, fun i ex hi => hi, rfl⟩
  · have hn1 : ∃ n1 : Node, (if e.backward
        then { getNode s e.dst with updated_output_ports :=
                 (getNode s e.dst).updated_output_ports ++ [e.output_port_number] }
        else { getNode s e.dst with updated_input_ports :=
                 (getNode s e.dst).updated_input_ports ++ [e.input_port_number] }) = n1
        ∧ n1.status = (getNode s e.dst).status
        ∧ n1.exception = (getNode s e.dst).exception := by
      cases e.backward <;> exact ⟨_, rfl, rfl, rfl⟩
    obtain ⟨n1, hn1eq, hn1st, hn1ex⟩ := hn1
    by_cases hidl : (getNode s e.dst).status = ExecStatus.Idle
    · -- the destination was Idle: stage it and push it
      have hdlt : e.dst < s.nodes.length := by
        by_contra hge
        have : getNode s e.dst = defaultNode := by
          show s.nodes.getD e.dst defaultNode = defaultNode
          exact List.getD_eq_default _ _ (Nat.le_of_not_lt hge)
        rw [this] at hidl
        cases hidl
      have hdexc : (getNode s e.dst).exception = none := by
        by_contra hne
        exact (hexc e.dst hdlt hne) hidl
      have hstep : prepareEdgeStep s e
          = { setNode s e.dst { n1 with status := ExecStatus.Preparing } with
                updated_processors := e.dst :: s.updated_processors } := by
        simp only [prepareEdgeStep]
        rw [if_neg hfin, hn1eq, if_pos hidl]
      have hget : ∀ i, getNode (prepareEdgeStep s e) i
          = if e.dst = i ∧ e.dst < s.nodes.length
            then { n1 with status := ExecStatus.Preparing }
            else getNode s i := by
        intro i
        rw [hstep, getNode_setStack]
        by_cases hip : e.dst = i
        · subst hip
          rw [if_pos ⟨rfl, hdlt⟩]
          show (s.nodes.set e.dst _).getD e.dst defaultNode = _
          exact getD_set_self _ _ _ _ hdlt
        · rw [if_neg (fun hx => hip hx.1)]
          show (s.nodes.set e.dst _).getD i defaultNode = _
          exact getD_set_ne _ _ _ hip
      have hlen : (prepareEdgeStep s e).nodes.length = s.nodes.length := by
        rw [hstep]
        show (s.nodes.set e.dst _).length = s.nodes.length
        exact List.length_set _ _ _
      have hstack : (prepareEdgeStep s e).updated_processors
          = e.dst :: s.updated_processors := by
        rw [hstep]
      have hnin : e.dst ∉ s.updated_processors := by
        intro hin
        exact (hmem e.dst hin).2.2 hidl
      refine ⟨⟨?_, ?_, ?_⟩, ?_, hlen⟩
      · rw [hstack]
        exact List.nodup_cons.mpr ⟨hnin, hnd⟩
      · intro j hj
        rw [hstack] at hj
        rw [hlen]
        rcases List.mem_cons.mp hj with rfl | hj
        · rw [hget e.dst, if_pos ⟨rfl, hdlt⟩]
          refine ⟨hdlt, ?_, ?_⟩
          · show n1.exception = none
            rw [hn1ex]
            exact hdexc
          · intro hx
            cases hx
        · have hjne : e.dst ≠ j := fun hx => hnin (hx ▸ hj)
          rw [hget j, if_neg (fun hx => hjne hx.1)]
          exact hmem j hj
      · intro i hi hne
        rw [hlen] at hi
        rw [hget i] at hne ⊢
        by_cases hip : e.dst = i ∧ e.dst < s.nodes.length
        · rw [if_pos hip] at hne ⊢
          intro hx
          cases hx
        · rw [if_neg hip] at hne ⊢
          exact hexc i hi hne
      · intro i ex hi
        rw [hget i]
        by_cases hip : e.dst = i ∧ e.dst < s.nodes.length
        · exfalso
          rw [← hip.1] at hi
          rw [hdexc] at hi
          cases hi
        · rw [if_neg hip]
          exact hi
    · -- already Preparing/Executing: just record the notification
      have hstep : prepareEdgeStep s e = setNode s e.dst n1 := by
        simp only [prepareEdgeStep]
        rw [if_neg hfin, hn1eq, if_neg hidl]
      have hget : ∀ i, getNode (prepareEdgeStep s e) i
          = if e.dst = i ∧ e.dst < s.nodes.length then n1 else getNode s i := by
        intro i
        rw [hstep]
        by_cases hip : e.dst = i
        · subst hip
          by_cases hl : e.dst < s.nodes.length
          · rw [if_pos ⟨rfl, hl⟩]
            show (s.nodes.set e.dst _).getD e.dst defaultNode = _
            exact getD_set_self _ _ _ _ hl
          · rw [if_neg (fun hx => hl hx.2)]
            show (s.nodes.set e.dst _).getD e.dst defaultNode = _
            rw [List.set_eq_of_length_le (Nat.le_of_not_lt hl)]
            rfl
        · rw [if_neg (fun hx => hip hx.1)]
          show (s.nodes.set e.dst _).getD i defaultNode = _
          exact getD_set_ne _ _ _ hip
      have hlen : (prepareEdgeStep s e).nodes.length = s.nodes.length := by
        rw [hstep]
        show (s.nodes.set e.dst _).length = s.nodes.length
        exact List.length_set _ _ _
      have hstack : (prepareEdgeStep s e).updated_processors = s.updated_processors := by
        rw [hstep]
        rfl
      refine ⟨⟨?_, ?_, ?_⟩, ?_, hlen⟩
      · rw [hstack]
        exact hnd
      · intro j hj
        rw [hstack] at hj
        rw [hlen]
        obtain ⟨hjl, hjex, hjst⟩ := hmem j hj
        rw [hget j]
        by_cases hip : e.dst = j ∧ e.dst < s.nodes.length
        · rw [if_pos hip]
          refine ⟨hjl, ?_, ?_⟩
          · rw [hn1ex, hip.1]
            exact hjex
          · rw [hn1st, hip.1]
            exact hjst
        · rw [if_neg hip]
          exact ⟨hjl, hjex, hjst⟩
      · intro i hi hne
        rw [hlen] at hi
        rw [hget i] at hne ⊢
        by_cases hip : e.dst = i ∧ e.dst < s.nodes.length
        · rw [if_pos hip] at hne ⊢
          rw [hn1st]
          rw [hn1ex] at hne
          rw [hip.1] at hne ⊢
          exact hexc i hi hne
        · rw [if_neg hip] at hne ⊢
          exact hexc i hi hne
      · intro i ex hi
        rw [hget i]
        by_cases hip : e.dst = i ∧ e.dst < s.nodes.length
        · rw [if_pos hip, hn1ex, hip.1]
          exact hi
        · rw [if_neg hip]
          exact hi

theorem stage_fold_proj {α : Type} (f : Node → α) (bs ds : Nat → Nat)
    (hf1 : ∀ u n, f (stagePortsUpd bs ds u n) = f n)
    (hf2 : ∀ n, f (setStatusUpd ExecStatus.Preparing n) = f n)
    (l : List Nat) :
    ∀ (acc : List Node × List Nat) (i : Nat),
      f ((l.foldl (expandStageNode bs ds) acc).1.getD i defaultNode)
        = f (acc.1.getD i defaultNode) := by
  induction l with
  | nil => intro acc i; rfl
  | cons u t ih =>
    intro acc i
    rw [List.foldl_cons, ih]
    simp only [expandStageNode]
    by_cases hc : (stagePortsUpd bs ds u (acc.1.getD u defaultNode)).status
        = ExecStatus.Idle
    · rw [if_pos hc]
      by_cases hu : u = i
      · subst hu
        by_cases hl : u < acc.1.length
        · rw [getD_set_self _ _ _ _ hl, hf2, hf1]
        · rw [List.set_eq_of_length_le (Nat.le_of_not_lt hl)]
      · exact congrArg f (getD_set_ne _ _ _ hu)
    · rw [if_neg hc]
      by_cases hu : u = i
      · subst hu
        by_cases hl : u < acc.1.length
        · rw [getD_set_self _ _ _ _ hl, hf1]
        · rw [List.set_eq_of_length_le (Nat.le_of_not_lt hl)]
      · exact congrArg f (getD_set_ne _ _ _ hu)

theorem replicate_fresh_exc (k m : Nat) :
    ((List.replicate k freshNode).getD m defaultNode).exception = none := by
  rw [List.getD_eq_getElem?_getD, List.getElem?_replicate]
  by_cases hm : m < k
  · rw [if_pos hm]
    rfl
  · rw [if_neg hm]
    rfl

theorem wireUpd_exc (e : Edge) (b : Bool) (n : Node) :
    (wireUpd e b n).exception = n.exception := by
  cases b <;> simp [wireUpd]

theorem wireUpd_status (e : Edge) (b : Bool) (n : Node) :
    (wireUpd e b n).status = n.status := by
  cases b <;> simp [wireUpd]

theorem graphExpand_exc_old (w : List (Nat × Edge × Bool)) (np : Nat)
    (ns : List Node) (i : Nat) (hi : i < ns.length) :
    ((graphExpand w np ns).1.getD i defaultNode).exception
      = (ns.getD i defaultNode).exception :=
  graphExpand_proj Node.exception wireUpd_exc w np ns i hi

theorem graphExpand_status_old (w : List (Nat × Edge × Bool)) (np : Nat)
    (ns : List Node) (i : Nat) (hi : i < ns.length) :
    ((graphExpand w np ns).1.getD i defaultNode).status
      = (ns.getD i defaultNode).status :=
  graphExpand_proj Node.status wireUpd_status w np ns i hi

theorem graphExpand_exc_new (w : List (Nat × Edge × Bool)) (np : Nat)
    (ns : List Node) (i : Nat) (hi : ns.length ≤ i) :
    ((graphExpand w np ns).1.getD i defaultNode).exception = none := by
  show ((w.foldl addWire
      (ns ++ List.replicate (np - ns.length) freshNode)).getD i defaultNode).exception = none
  rw [foldl_addWire_proj Node.exception wireUpd_exc]
  rw [List.getD_eq_getElem?_getD, List.getElem?_append_right hi,
      ← List.getD_eq_getElem?_getD]
  exact replicate_fresh_exc _ _

theorem graphExpand_length_ge (w : List (Nat × Edge × Bool)) (np : Nat)
    (ns : List Node) : ns.length ≤ (graphExpand w np ns).1.length := by
  show ns.length ≤ (w.foldl addWire
      (ns ++ List.replicate (np - ns.length) freshNode)).length
  rw [foldl_addWire_length, List.length_append]
  exact Nat.le_add_right _ _

/-- One staging step preserves the three exception-invariant conditions. -/
theorem expandStageNode_inv (bs ds : Nat → Nat) (acc : List Node × List Nat) (u : Nat)
    (h1 : acc.2.Nodup)
    (h2 : ∀ j ∈ acc.2, j < acc.1.length
        ∧ (acc.1.getD j defaultNode).exception = none
        ∧ (acc.1.getD j defaultNode).status ≠ ExecStatus.Idle)
    (h3 : ∀ i, i < acc.1.length → (acc.1.getD i defaultNode).exception ≠ none
        → (acc.1.getD i defaultNode).status ≠ ExecStatus.Idle) :
    (expandStageNode bs ds acc u).2.Nodup
    ∧ (∀ j ∈ (expandStageNode bs ds acc u).2, j < (expandStageNode bs ds acc u).1.length
        ∧ ((expandStageNode bs ds acc u).1.getD j defaultNode).exception = none
        ∧ ((expandStageNode bs ds acc u).1.getD j defaultNode).status ≠ ExecStatus.Idle)
    ∧ (∀ i, i < (expandStageNode bs ds acc u).1.length
        → ((expandStageNode bs ds acc u).1.getD i defaultNode).exception ≠ none
        → ((expandStageNode bs ds acc u).1.getD i defaultNode).status
            ≠ ExecStatus.Idle) := by
  simp only [expandStageNode]
  by_cases hc : (stagePortsUpd bs ds u (acc.1.getD u defaultNode)).status
      = ExecStatus.Idle
  · rw [if_pos hc]
    have hstid : (acc.1.getD u defaultNode).status = ExecStatus.Idle := hc
    have hulen : u < acc.1.length := by
      by_contra hge
      rw [List.getD_eq_default _ _ (Nat.le_of_not_lt hge)] at hstid
      cases hstid
    have huexc : (acc.1.getD u defaultNode).exception = none := by
      by_contra hne
      exact h3 u hulen hne hstid
    have hunin : u ∉ acc.2 := fun hin => (h2 u hin).2.2 hstid
    refine ⟨List.nodup_cons.mpr ⟨hunin, h1⟩, ?_, ?_⟩
    · intro j hj
      rcases List.mem_cons.mp hj with rfl | hj
      · refine ⟨by rw [List.length_set]; exact hulen, ?_, ?_⟩
        · rw [getD_set_self _ _ _ _ hulen]
          exact huexc
        · rw [getD_set_self _ _ _ _ hulen]
          intro hx
          exact ExecStatus.noConfusion hx
      · obtain ⟨hjl, hjex, hjst⟩ := h2 j hj
        have hju : u ≠ j := fun hx => hunin (hx ▸ hj)
        refine ⟨by rw [List.length_set]; exact hjl, ?_, ?_⟩
        · rw [getD_set_ne _ _ _ hju]
          exact hjex
        · rw [getD_set_ne _ _ _ hju]
          exact hjst
    · intro i hilen hne
      rw [List.length_set] at hilen
      by_cases hui : u = i
      · subst hui
        rw [getD_set_self _ _ _ _ hulen] at hne
        exact absurd huexc hne
      · rw [getD_set_ne _ _ _ hui] at hne ⊢
        exact h3 i hilen hne
  · rw [if_neg hc]
    refine ⟨h1, ?_, ?_⟩
    · intro j hj
      obtain ⟨hjl, hjex, hjst⟩ := h2 j hj
      by_cases hui : u = j
      · subst hui
        by_cases hl : u < acc.1.length
        · refine ⟨by rw [List.length_set]; exact hjl, ?_, ?_⟩
          · rw [getD_set_self _ _ _ _ hl]
            exact hjex
          · rw [getD_set_self _ _ _ _ hl]
            exact hjst
        · rw [List.set_eq_of_length_le (Nat.le_of_not_lt hl)]
          exact ⟨hjl, hjex, hjst⟩
      · refine ⟨by rw [List.length_set]; exact hjl, ?_, ?_⟩
        · rw [getD_set_ne _ _ _ hui]
          exact hjex
        · rw [getD_set_ne _ _ _ hui]
          exact hjst
    · intro i hilen hne
      rw [List.length_set] at hilen
      by_cases hui : u = i
      · subst hui
        by_cases hl : u < acc.1.length
        · rw [getD_set_self _ _ _ _ hl] at hne ⊢
          exact h3 u hilen hne
        · rw [List.set_eq_of_length_le (Nat.le_of_not_lt hl)] at hne ⊢
          exact h3 u hilen hne
      · rw [getD_set_ne _ _ _ hui] at hne ⊢
        exact h3 i hilen hne

theorem stage_fold_inv (bs ds : Nat → Nat) (l : List Nat) :
    ∀ acc : List Node × List Nat,
      acc.2.Nodup →
      (∀ j ∈ acc.2, j < acc.1.length
          ∧ (acc.1.getD j defaultNode).exception = none
          ∧ (acc.1.getD j defaultNode).status ≠ ExecStatus.Idle) →
      (∀ i, i < acc.1.length → (acc.1.getD i defaultNode).exception ≠ none
          → (acc.1.getD i defaultNode).status ≠ ExecStatus.Idle) →
      ((l.foldl (expandStageNode bs ds) acc).2.Nodup
       ∧ (∀ j ∈ (l.foldl (expandStageNode bs ds) acc).2,
            j < (l.foldl (expandStageNode bs ds) acc).1.length
            ∧ ((l.foldl (expandStageNode bs ds) acc).1.getD j defaultNode).exception = none
            ∧ ((l.foldl (expandStageNode bs ds) acc).1.getD j defaultNode).status
                ≠ ExecStatus.Idle)
       ∧ (∀ i, i < (l.foldl (expandStageNode bs ds) acc).1.length
            → ((l.foldl (expandStageNode bs ds) acc).1.getD i defaultNode).exception ≠ none
            → ((l.foldl (expandStageNode bs ds) acc).1.getD i defaultNode).status
                ≠ ExecStatus.Idle)) := by
  induction l with
  | nil =>
    intro acc hA hB hC
    exact ⟨hA, hB, hC⟩
  | cons u t ih =>
    intro acc hA hB hC
    rw [List.foldl_cons]
    obtain ⟨hA', hB', hC'⟩ := expandStageNode_inv bs ds acc u hA hB hC
    exact ih (expandStageNode bs ds acc u) hA' hB' hC'

theorem expandOk_exc_proj (beh : Behavior) (s0 : PPState) (pid call : Nat)
    (ps : List ProcMeta) (i : Nat) (hi : i < s0.nodes.length) :
    (getNode (expandOk beh s0 pid call ps) i).exception = (getNode s0 i).exception := by
  show ((expandStaged beh s0 pid call ps).1.getD i defaultNode).exception = _
  rw [expandStaged_def,
      stage_fold_proj Node.exception _ _ (fun u n => rfl) (fun n => rfl)]
  exact graphExpand_exc_old _ _ _ i hi

theorem stage_fold_not_pushed (bs ds : Nat → Nat) (l : List Nat) :
    ∀ (acc : List Node × List Nat) (pid : Nat),
      (acc.1.getD pid defaultNode).status ≠ ExecStatus.Idle → pid ∉ acc.2 →
      pid ∉ (l.foldl (expandStageNode bs ds) acc).2 := by
  induction l with
  | nil => intro acc pid _ hnin; exact hnin
  | cons u t ih =>
    intro acc pid hst hnin
    rw [List.foldl_cons]
    have hstep : ((expandStageNode bs ds acc u).1.getD pid defaultNode).status
          ≠ ExecStatus.Idle
        ∧ pid ∉ (expandStageNode bs ds acc u).2 := by
      simp only [expandStageNode]
      by_cases hu : u = pid
      · subst hu
        have hn1 : (stagePortsUpd bs ds u (acc.1.getD u defaultNode)).status
            = (acc.1.getD u defaultNode).status := rfl
        have hc : ¬ (stagePortsUpd bs ds u (acc.1.getD u defaultNode)).status
            = ExecStatus.Idle := by
          rw [hn1]
          exact hst
        rw [if_neg hc]
        constructor
        · by_cases hl : u < acc.1.length
          · rw [getD_set_self _ _ _ _ hl]
            exact hc
          · rw [List.set_eq_of_length_le (Nat.le_of_not_lt hl)]
            exact hst
        · exact hnin
      · by_cases hc : (stagePortsUpd bs ds u (acc.1.getD u defaultNode)).status
            = ExecStatus.Idle
        · rw [if_pos hc]
          constructor
          · rw [getD_set_ne _ _ _ hu]
            exact hst
          · intro hmem
            rcases List.mem_cons.mp hmem with hx | hx
            · exact hu hx.symm
            · exact hnin hx
        · rw [if_neg hc]
          constructor
          · rw [getD_set_ne _ _ _ hu]
            exact hst
          · exact hnin
    exact ih (expandStageNode bs ds acc u) pid hstep.1 hstep.2

theorem expandOk_not_pushed (beh : Behavior) (s0 : PPState) (pid call : Nat)
    (ps : List ProcMeta) (hplen : pid < s0.nodes.length)
    (hpst : (getNode s0 pid).status ≠ ExecStatus.Idle)
    (hpnin : pid ∉ s0.updated_processors) :
    pid ∉ (expandOk beh s0 pid call ps).updated_processors := by
  show pid ∉ (expandStaged beh s0 pid call ps).2
  rw [expandStaged_def]
  apply stage_fold_not_pushed
  · show ((graphExpand (beh.wireFn pid call) (s0.processors ++ ps).length
        s0.nodes).1.getD pid defaultNode).status ≠ ExecStatus.Idle
    rw [graphExpand_status_old _ _ _ pid hplen]
    exact hpst
  · exact hpnin

theorem expandOk_len_ge (beh : Behavior) (s0 : PPState) (pid call : Nat)
    (ps : List ProcMeta) :
    s0.nodes.length ≤ (expandOk beh s0 pid call ps).nodes.length := by
  show s0.nodes.length ≤ (expandStaged beh s0 pid call ps).1.length
  rw [expandStaged_def, stage_fold_length]
  exact graphExpand_length_ge _ _ _

theorem expandOk_excInv (beh : Behavior) (s0 : PPState) (pid call : Nat)
    (ps : List ProcMeta)
    (hnd : s0.updated_processors.Nodup)
    (hmem : ∀ j ∈ s0.updated_processors, j < s0.nodes.length
        ∧ (getNode s0 j).exception = none ∧ (getNode s0 j).status ≠ ExecStatus.Idle)
    (hexc : ∀ i, i < s0.nodes.length → (getNode s0 i).exception ≠ none
        → (getNode s0 i).status ≠ ExecStatus.Idle) :
    (expandOk beh s0 pid call ps).updated_processors.Nodup
    ∧ (∀ j ∈ (expandOk beh s0 pid call ps).updated_processors,
        j < (expandOk beh s0 pid call ps).nodes.length
        ∧ (getNode (expandOk beh s0 pid call ps) j).exception = none
        ∧ (getNode (expandOk beh s0 pid call ps) j).status ≠ ExecStatus.Idle)
    ∧ (∀ i, i < (expandOk beh s0 pid call ps).nodes.length
        → (getNode (expandOk beh s0 pid call ps) i).exception ≠ none
        → (getNode (expandOk beh s0 pid call ps) i).status ≠ ExecStatus.Idle) := by
  have hpre2 : ∀ j ∈ s0.updated_processors,
      j < (graphExpand (beh.wireFn pid call) (s0.processors ++ ps).length
            s0.nodes).1.length
      ∧ ((graphExpand (beh.wireFn pid call) (s0.processors ++ ps).length
            s0.nodes).1.getD j defaultNode).exception = none
      ∧ ((graphExpand (beh.wireFn pid call) (s0.processors ++ ps).length
            s0.nodes).1.getD j defaultNode).status ≠ ExecStatus.Idle := by
    intro j hj
    obtain ⟨hjl, hjex, hjst⟩ := hmem j hj
    refine ⟨Nat.lt_of_lt_of_le hjl (graphExpand_length_ge _ _ _), ?_, ?_⟩
    · rw [graphExpand_exc_old _ _ _ j hjl]
      exact hjex
    · rw [graphExpand_status_old _ _ _ j hjl]
      exact hjst
  have hpre3 : ∀ i, i < (graphExpand (beh.wireFn pid call)
        (s0.processors ++ ps).length s0.nodes).1.length
      → ((graphExpand (beh.wireFn pid call) (s0.processors ++ ps).length
            s0.nodes).1.getD i defaultNode).exception ≠ none
      → ((graphExpand (beh.wireFn pid call) (s0.processors ++ ps).length
            s0.nodes).1.getD i defaultNode).status ≠ ExecStatus.Idle := by
    intro i hil hne
    by_cases hi : i < s0.nodes.length
    · rw [graphExpand_status_old _ _ _ i hi]
      rw [graphExpand_exc_old _ _ _ i hi] at hne
      exact hexc i hi hne
    · exact absurd (graphExpand_exc_new _ _ _ i (Nat.le_of_not_lt hi)) hne
  obtain ⟨c1, c2, c3⟩ := stage_fold_inv
    (fun i => (s0.nodes.getD i defaultNode).back_edges.length)
    (fun i => (s0.nodes.getD i defaultNode).direct_edges.length)
    (graphExpand (beh.wireFn pid call) (s0.processors ++ ps).length s0.nodes).2
    ((graphExpand (beh.wireFn pid call) (s0.processors ++ ps).length s0.nodes).1,
      s0.updated_processors)
    hnd hpre2 hpre3
  exact ⟨c1, c2, c3⟩

theorem expandOk_status_proj (beh : Behavior) (s0 : PPState) (pid call : Nat)
    (ps : List ProcMeta) (i : Nat) (hi : i < s0.nodes.length)
    (hne : (getNode s0 i).status ≠ ExecStatus.Idle) :
    (getNode (expandOk beh s0 pid call ps) i).status = (getNode s0 i).status :=
  expandOk_status beh s0 pid call ps i hi hne

/-- State bookkeeping through a non-expanding node-processing arm: only node
`pid` changes (status and cleared lists), its exception is untouched, the node
work stack and node count are unchanged. -/
theorem drain_modify_spec (s X : PPState) (pid : Nat) (v : ExecStatus) (st : PStatus)
    (hpid : pid < s.nodes.length)
    (hXnodes : X.nodes
      = (modifyNode (modifyNode s pid (prepOkUpd st)) pid (setStatusUpd v)).nodes)
    (hXstack : X.updated_processors = s.updated_processors) :
    (∀ i, i ≠ pid → getNode (drainPostPorts X pid) i = getNode s i)
    ∧ (getNode (drainPostPorts X pid) pid).exception = (getNode s pid).exception
    ∧ (getNode (drainPostPorts X pid) pid).status = v
    ∧ (drainPostPorts X pid).updated_processors = s.updated_processors
    ∧ (drainPostPorts X pid).nodes.length = s.nodes.length := by
  have hlen1 : pid < (modifyNode s pid (prepOkUpd st)).nodes.length := by
    rw [modifyNode_length]
    exact hpid
  have hXget : ∀ i, getNode X i
      = getNode (modifyNode (modifyNode s pid (prepOkUpd st)) pid (setStatusUpd v)) i := by
    intro i
    show X.nodes.getD i defaultNode = _
    rw [hXnodes]
    rfl
  have hXlen : pid < X.nodes.length := by
    rw [hXnodes, modifyNode_length, modifyNode_length]
    exact hpid
  have hXpid : getNode X pid = setStatusUpd v (prepOkUpd st (getNode s pid)) := by
    rw [hXget pid, getNode_modifyNode_self _ _ _ hlen1, getNode_modifyNode_self _ _ _ hpid]
  refine ⟨?_, ?_, ?_, ?_, ?_⟩
  · intro i hi
    rw [getNode_drain, getNode_modifyNode_ne _ _ (fun hx : pid = i => hi hx.symm),
        hXget i, getNode_modifyNode_ne _ _ (fun hx : pid = i => hi hx.symm),
        getNode_modifyNode_ne _ _ (fun hx : pid = i => hi hx.symm)]
  · rw [getNode_drain, getNode_modifyNode_self _ _ _ hXlen, hXpid]
    rfl
  · rw [getNode_drain, getNode_modifyNode_self _ _ _ hXlen, hXpid]
    rfl
  · rw [drain_stack, hXstack]
  · rw [drain_length, hXnodes, modifyNode_length, modifyNode_length]

/-- Carrying the exception invariant and the stickiness of captured exceptions
through any state change that only touches node `pid` (which has no captured
exception), keeps the stack and does not shrink the node table. -/
theorem nonexpand_spec (s s' : PPState) (pid : Nat)
    (hnd : s.updated_processors.Nodup)
    (hmem : ∀ j ∈ s.updated_processors, j < s.nodes.length
        ∧ (getNode s j).exception = none ∧ (getNode s j).status ≠ ExecStatus.Idle)
    (hexc : ∀ i, i < s.nodes.length → (getNode s i).exception ≠ none
        → (getNode s i).status ≠ ExecStatus.Idle)
    (hpexc : (getNode s pid).exception = none)
    (hpnin : pid ∉ s.updated_processors)
    (hA : ∀ i, i ≠ pid → getNode s' i = getNode s i)
    (hB : (getNode s' pid).exception = (getNode s pid).exception)
    (hC : s'.updated_processors = s.updated_processors)
    (hD : s'.nodes.length = s.nodes.length) :
    ExcInv s'
    ∧ (∀ i ex, (getNode s i).exception = some ex →
        (getNode s' i).exception = some ex) := by
  constructor
  · refine ⟨?_, ?_, ?_⟩
    · rw [hC]
      exact hnd
    · intro j hj
      rw [hC] at hj
      obtain ⟨hjl, hjex, hjst⟩ := hmem j hj
      have hjp : j ≠ pid := fun hx => hpnin (hx ▸ hj)
      rw [hD, hA j hjp]
      exact ⟨hjl, hjex, hjst⟩
    · intro i hi hne
      rw [hD] at hi
      by_cases hip : i = pid
      · subst hip
        rw [hB, hpexc] at hne
        exact absurd rfl hne
      · rw [hA i hip] at hne ⊢
        exact hexc i hi hne
  · intro i ex hi
    by_cases hip : i = pid
    · subst hip
      rw [hpexc] at hi
      cases hi
    · rw [hA i hip]
      exact hi

/-- The node-processing branch preserves every already-captured exception, and
preserves the exception invariant whenever the loop continues.  `s` is the
state after popping `pid` from the node work stack. -/
theorem prepareNodeStep_spec (beh : Behavior) (s : PPState) (pid : Nat)
    (h : ExcInv s)
    (hplen : pid < s.nodes.length)
    (hpexc : (getNode s pid).exception = none)
    (hpst : (getNode s pid).status ≠ ExecStatus.Idle)
    (hpnin : pid ∉ s.updated_processors) :
    (∀ i ex, (getNode s i).exception = some ex →
        (getNode (prepareNodeStep beh s pid).state i).exception = some ex)
    ∧ (∀ s1, prepareNodeStep beh s pid = .next s1 → ExcInv s1) := by
  obtain ⟨hnd, hmem, hexc⟩ := h
  cases hcall : beh.prepareFn pid (getNode s pid).prepare_calls
      (getNode s pid).updated_input_ports (getNode s pid).updated_output_ports with
  | error e =>
    have hred : prepareCall beh s pid = .error (modifyNode s pid (prepFailUpd e)) := by
      simp only [prepareCall]
      rw [hcall]
    have hstep : prepareNodeStep beh s pid = .fail (modifyNode s pid (prepFailUpd e)) := by
      simp only [prepareNodeStep, hred]
    constructor
    · intro i ex hi
      rw [hstep]
      show (getNode (modifyNode s pid (prepFailUpd e)) i).exception = some ex
      by_cases hip : pid = i
      · subst hip
        rw [hpexc] at hi
        cases hi
      · rw [getNode_modifyNode_ne _ _ hip]
        exact hi
    · intro s1 hcontra
      rw [hstep] at hcontra
      cases hcontra
  | ok st =>
    have hred : prepareCall beh s pid = .ok (st, modifyNode s pid (prepOkUpd st)) := by
      simp only [prepareCall]
      rw [hcall]
    have harm : ∀ (v : ExecStatus) (st' : PStatus) (X : PPState),
        X.nodes = (modifyNode (modifyNode s pid (prepOkUpd st')) pid
          (setStatusUpd v)).nodes →
        X.updated_processors = s.updated_processors →
        (∀ i ex, (getNode s i).exception = some ex →
            (getNode (drainPostPorts X pid) i).exception = some ex)
        ∧ ExcInv (drainPostPorts X pid) := by
      intro v st' X hXnodes hXstack
      obtain ⟨hA, hBexc, hBst, hCstk, hDlen⟩ :=
        drain_modify_spec s X pid v st' hplen hXnodes hXstack
      obtain ⟨hInv, hPres⟩ :=
        nonexpand_spec s (drainPostPorts X pid) pid hnd hmem hexc hpexc hpnin
          hA hBexc hCstk hDlen
      exact ⟨hPres, hInv⟩
    cases st with
    | NeedData =>
      have hstep : prepareNodeStep beh s pid
          = .next (drainPostPorts (modifyNode (modifyNode s pid (prepOkUpd .NeedData))
              pid (setStatusUpd .Idle)) pid) := by
        simp only [prepareNodeStep, hred]
      obtain ⟨hPres, hInv⟩ := harm .Idle .NeedData
        (modifyNode (modifyNode s pid (prepOkUpd .NeedData)) pid (setStatusUpd .Idle))
        rfl rfl
      refine ⟨?_, ?_⟩
      · intro i ex hi
        rw [hstep]
        exact hPres i ex hi
      · intro s1 h1
        rw [hstep] at h1
        injection h1 with h1
        exact h1 ▸ hInv
    | PortFull =>
      have hstep : prepareNodeStep beh s pid
          = .next (drainPostPorts (modifyNode (modifyNode s pid (prepOkUpd .PortFull))
              pid (setStatusUpd .Idle)) pid) := by
        simp only [prepareNodeStep, hred]
      obtain ⟨hPres, hInv⟩ := harm .Idle .PortFull
        (modifyNode (modifyNode s pid (prepOkUpd .PortFull)) pid (setStatusUpd .Idle))
        rfl rfl
      refine ⟨?_, ?_⟩
      · intro i ex hi
        rw [hstep]
        exact hPres i ex hi
      · intro s1 h1
        rw [hstep] at h1
        injection h1 with h1
        exact h1 ▸ hInv
    | Finished =>
      have hstep : prepareNodeStep beh s pid
          = .next (drainPostPorts (modifyNode (modifyNode s pid (prepOkUpd .Finished))
              pid (setStatusUpd .Finished)) pid) := by
        simp only [prepareNodeStep, hred]
      obtain ⟨hPres, hInv⟩ := harm .Finished .Finished
        (modifyNode (modifyNode s pid (prepOkUpd .Finished)) pid (setStatusUpd .Finished))
        rfl rfl
      refine ⟨?_, ?_⟩
      · intro i ex hi
        rw [hstep]
        exact hPres i ex hi
      · intro s1 h1
        rw [hstep] at h1
        injection h1 with h1
        exact h1 ▸ hInv
    | Ready =>
      have hstep : prepareNodeStep beh s pid
          = .next (drainPostPorts
              { modifyNode (modifyNode s pid (prepOkUpd .Ready)) pid
                  (setStatusUpd .Executing)
                with queue := (modifyNode s pid (prepOkUpd .Ready)).queue ++ [pid] }
              pid) := by
        simp only [prepareNodeStep, hred]
      obtain ⟨hPres, hInv⟩ := harm .Executing .Ready
        { modifyNode (modifyNode s pid (prepOkUpd .Ready)) pid (setStatusUpd .Executing)
          with queue := (modifyNode s pid (prepOkUpd .Ready)).queue ++ [pid] }
        rfl rfl
      refine ⟨?_, ?_⟩
      · intro i ex hi
        rw [hstep]
        exact hPres i ex hi
      · intro s1 h1
        rw [hstep] at h1
        injection h1 with h1
        exact h1 ▸ hInv
    | Async =>
      have hstep : prepareNodeStep beh s pid
          = .next (drainPostPorts
              { modifyNode (modifyNode s pid (prepOkUpd .Async)) pid
                  (setStatusUpd .Executing)
                with async_queue :=
                  (modifyNode s pid (prepOkUpd .Async)).async_queue ++ [pid] }
              pid) := by
        simp only [prepareNodeStep, hred]
      obtain ⟨hPres, hInv⟩ := harm .Executing .Async
        { modifyNode (modifyNode s pid (prepOkUpd .Async)) pid (setStatusUpd .Executing)
          with async_queue := (modifyNode s pid (prepOkUpd .Async)).async_queue ++ [pid] }
        rfl rfl
      refine ⟨?_, ?_⟩
      · intro i ex hi
        rw [hstep]
        exact hPres i ex hi
      · intro s1 h1
        rw [hstep] at h1
        injection h1 with h1
        exact h1 ▸ hInv
    | ExpandPipeline =>
      have hcalleq : (getNode (modifyNode s pid (prepOkUpd .ExpandPipeline))
          pid).expand_calls = (getNode s pid).expand_calls := by
        rw [getNode_modifyNode_self _ _ _ hplen]
        rfl
      have hA0 : ∀ i, i ≠ pid →
          getNode (modifyNode (modifyNode s pid (prepOkUpd .ExpandPipeline)) pid
            bumpExpandUpd) i = getNode s i := by
        intro i hi
        rw [getNode_modifyNode_ne _ _ (fun hx : pid = i => hi hx.symm),
            getNode_modifyNode_ne _ _ (fun hx : pid = i => hi hx.symm)]
      have h1len : pid < (modifyNode s pid (prepOkUpd .ExpandPipeline)).nodes.length := by
        rw [modifyNode_length]
        exact hplen
      have hD0 : (modifyNode (modifyNode s pid (prepOkUpd .ExpandPipeline)) pid
          bumpExpandUpd).nodes.length = s.nodes.length := by
        rw [modifyNode_length, modifyNode_length]
      have hB0 : (getNode (modifyNode (modifyNode s pid (prepOkUpd .ExpandPipeline)) pid
          bumpExpandUpd) pid).exception = (getNode s pid).exception := by
        rw [getNode_modifyNode_self _ _ _ h1len, getNode_modifyNode_self _ _ _ hplen]
        rfl
      have hS0st : (getNode (modifyNode (modifyNode s pid (prepOkUpd .ExpandPipeline)) pid
          bumpExpandUpd) pid).status = (getNode s pid).status := by
        rw [getNode_modifyNode_self _ _ _ h1len, getNode_modifyNode_self _ _ _ hplen]
        rfl
      obtain ⟨hInvS0, hPresS0⟩ :=
        nonexpand_spec s (modifyNode (modifyNode s pid (prepOkUpd .ExpandPipeline)) pid
            bumpExpandUpd) pid hnd hmem hexc hpexc hpnin hA0 hB0 rfl hD0
      obtain ⟨nd0, mem0, exc0⟩ := hInvS0
      cases hexp : beh.expandFn pid (getNode s pid).expand_calls with
      | error e =>
        have hexppl : expandPipeline beh (modifyNode s pid (prepOkUpd .ExpandPipeline)) pid
            = (false, modifyNode (modifyNode (modifyNode s pid
                (prepOkUpd .ExpandPipeline)) pid bumpExpandUpd) pid (expFailUpd e)) := by
          simp only [expandPipeline]
          rw [hcalleq, hexp]
        have hstep : prepareNodeStep beh s pid
            = .fail (modifyNode (modifyNode (modifyNode s pid
                (prepOkUpd .ExpandPipeline)) pid bumpExpandUpd) pid (expFailUpd e)) := by
          simp only [prepareNodeStep, hred, hexppl]
        refine ⟨?_, ?_⟩
        · intro i ex hi
          rw [hstep]
          show (getNode (modifyNode (modifyNode (modifyNode s pid
              (prepOkUpd .ExpandPipeline)) pid bumpExpandUpd) pid (expFailUpd e))
              i).exception = some ex
          by_cases hip : pid = i
          · subst hip
            rw [hpexc] at hi
            cases hi
          · rw [getNode_modifyNode_ne _ _ hip, getNode_modifyNode_ne _ _ hip,
                getNode_modifyNode_ne _ _ hip]
            exact hi
        · intro s1 hcontra
          rw [hstep] at hcontra
          cases hcontra
      | ok ps =>
        have hexppl := expandPipeline_ok beh
          (modifyNode s pid (prepOkUpd .ExpandPipeline)) pid ps
          (by rw [hcalleq]; exact hexp)
        have hstep : prepareNodeStep beh s pid
            = .next { expandOk beh (modifyNode (modifyNode s pid
                  (prepOkUpd .ExpandPipeline)) pid bumpExpandUpd) pid
                  (getNode (modifyNode s pid (prepOkUpd .ExpandPipeline))
                    pid).expand_calls ps
                with updated_processors := pid :: (expandOk beh
                  (modifyNode (modifyNode s pid (prepOkUpd .ExpandPipeline)) pid
                    bumpExpandUpd) pid
                  (getNode (modifyNode s pid (prepOkUpd .ExpandPipeline))
                    pid).expand_calls ps).updated_processors } := by
          simp only [prepareNodeStep, hred, hexppl]
        obtain ⟨ndE, memE, excE⟩ := expandOk_excInv beh
          (modifyNode (modifyNode s pid (prepOkUpd .ExpandPipeline)) pid bumpExpandUpd)
          pid (getNode (modifyNode s pid (prepOkUpd .ExpandPipeline)) pid).expand_calls
          ps nd0 mem0 exc0
        have hplen0 : pid < (modifyNode (modifyNode s pid (prepOkUpd .ExpandPipeline))
            pid bumpExpandUpd).nodes.length := by
          rw [hD0]
          exact hplen
        have hpst0 : (getNode (modifyNode (modifyNode s pid (prepOkUpd .ExpandPipeline))
            pid bumpExpandUpd) pid).status ≠ ExecStatus.Idle := by
          rw [hS0st]
          exact hpst
        have hnpush := expandOk_not_pushed beh
          (modifyNode (modifyNode s pid (prepOkUpd .ExpandPipeline)) pid bumpExpandUpd)
          pid (getNode (modifyNode s pid (prepOkUpd .ExpandPipeline)) pid).expand_calls
          ps hplen0 hpst0 hpnin
        refine ⟨?_, ?_⟩
        · intro i ex hi
          rw [hstep]
          have hilen : i < s.nodes.length := by
            by_contra hge
            have : getNode s i = defaultNode := by
              show s.nodes.getD i defaultNode = defaultNode
              exact List.getD_eq_default _ _ (Nat.le_of_not_lt hge)
            rw [this] at hi
            cases hi
          have hi0 := hPresS0 i ex hi
          show (getNode (expandOk beh (modifyNode (modifyNode s pid
              (prepOkUpd .ExpandPipeline)) pid bumpExpandUpd) pid
              (getNode (modifyNode s pid (prepOkUpd .ExpandPipeline))
                pid).expand_calls ps) i).exception = some ex
          rw [expandOk_exc_proj _ _ _ _ _ i (by rw [hD0]; exact hilen)]
          exact hi0
        · intro s1 h1
          rw [hstep] at h1
          injection h1 with h1
          have hPidTriple : pid < (expandOk beh (modifyNode (modifyNode s pid
                (prepOkUpd .ExpandPipeline)) pid bumpExpandUpd) pid
                (getNode (modifyNode s pid (prepOkUpd .ExpandPipeline))
                  pid).expand_calls ps).nodes.length
              ∧ (getNode (expandOk beh (modifyNode (modifyNode s pid
                  (prepOkUpd .ExpandPipeline)) pid bumpExpandUpd) pid
                  (getNode (modifyNode s pid (prepOkUpd .ExpandPipeline))
                    pid).expand_calls ps) pid).exception = none
              ∧ (getNode (expandOk beh (modifyNode (modifyNode s pid
                  (prepOkUpd .ExpandPipeline)) pid bumpExpandUpd) pid
                  (getNode (modifyNode s pid (prepOkUpd .ExpandPipeline))
                    pid).expand_calls ps) pid).status ≠ ExecStatus.Idle := by
            refine ⟨Nat.lt_of_lt_of_le hplen0 (expandOk_len_ge _ _ _ _ _), ?_, ?_⟩
            · rw [expandOk_exc_proj _ _ _ _ _ pid hplen0, hB0]
              exact hpexc
            · rw [expandOk_status _ _ _ _ _ pid hplen0 hpst0]
              exact hpst0
          refine h1 ▸ ⟨?_, ?_, ?_⟩
          · exact List.nodup_cons.mpr ⟨hnpush, ndE⟩
          · intro j hj
            rcases List.mem_cons.mp hj with hjp | hj
            · rw [hjp]
              exact hPidTriple
            · exact memE j hj
          · exact excE

/-- The whole `prepareProcessor` work loop preserves every already-captured
exception, for any fuel and any outcome. -/
theorem prepareLoop_exc (beh : Behavior) :
    ∀ (fuel : Nat) (s : PPState), ExcInv s →
      ∀ i e, (getNode s i).exception = some e →
        (getNode (prepareLoop beh fuel s).state i).exception = some e := by
  intro fuel
  induction fuel with
  | zero =>
    intro s _ i e hi
    by_cases hc : s.updated_processors = [] ∧ s.updated_edges = []
    · have hL : prepareLoop beh 0 s = .ok s := by
        simp only [prepareLoop]
        rw [if_pos hc]
      rw [hL]
      exact hi
    · have hL : prepareLoop beh 0 s = .outOfFuel s := by
        simp only [prepareLoop]
        rw [if_neg hc]
      rw [hL]
      exact hi
  | succ fuel ih =>
    intro s hInv i e hi
    obtain ⟨hnd, hmem, hexc⟩ := hInv
    rcases hup : s.updated_processors with _ | ⟨pid, rest⟩
    · rcases hue : s.updated_edges with _ | ⟨ed, erest⟩
      · have hL : prepareLoop beh (fuel + 1) s = .ok s := by
          simp only [prepareLoop]
          rw [hup, hue]
        rw [hL]
        exact hi
      · have hL : prepareLoop beh (fuel + 1) s
            = prepareLoop beh fuel
                (prepareEdgeStep { s with updated_edges := erest } ed) := by
          simp only [prepareLoop]
          rw [hup, hue]
        rw [hL]
        have hInv' : ExcInv { s with updated_edges := erest } := by
          refine ⟨hnd, ?_, hexc⟩
          intro j hj
          exact hmem j hj
        obtain ⟨hInv2, hPres2, _⟩ :=
          prepareEdgeStep_spec { s with updated_edges := erest } ed hInv'
        exact ih _ hInv2 i e (hPres2 i e hi)
    · have hL : prepareLoop beh (fuel + 1) s
          = (match prepareNodeStep beh { s with updated_processors := rest } pid with
             | .fail s1 => .fail s1
             | .next s1 => prepareLoop beh fuel s1) := by
        simp only [prepareLoop]
        rw [hup]
      have hpidmem : pid ∈ s.updated_processors := by
        rw [hup]
        exact List.mem_cons_self _ _
      obtain ⟨hplen, hpexc, hpst⟩ := hmem pid hpidmem
      have hndc : (pid :: rest).Nodup := hup ▸ hnd
      have hpnin : pid ∉ rest := (List.nodup_cons.mp hndc).1
      have hrestnd : rest.Nodup := (List.nodup_cons.mp hndc).2
      have hInv0 : ExcInv { s with updated_processors := rest } := by
        refine ⟨hrestnd, ?_, hexc⟩
        intro j hj
        have hj' : j ∈ s.updated_processors := by
          rw [hup]
          exact List.mem_cons_of_mem _ hj
        exact hmem j hj'
      obtain ⟨hPres, hInvNext⟩ := prepareNodeStep_spec beh
        { s with updated_processors := rest } pid hInv0 hplen hpexc hpst hpnin
      rw [hL]
      cases hns : prepareNodeStep beh { s with updated_processors := rest } pid with
      | fail s1 =>
        have hp := hPres i e hi
        rw [hns] at hp
        exact hp
      | next s1 =>
        have hp := hPres i e hi
        rw [hns] at hp
        exact ih s1 (hInvNext s1 hns) i e hp

/-- C6: each node's exception slot is sticky: whatever `prepareProcessor`
does (including the `prepare` calls, the edge walk, and any `expandPipeline`
calls it makes — the only executor operations that write exception slots), an
exception already captured on a node is never overwritten.  The hypotheses are
the invariant the executor maintains at every call site: the node handed to
`prepareProcessor` is a live node owned by the caller (in range, no captured
exception, not `Idle`), and a node that has captured an exception is never
`Idle` (having failed while owned, it is stuck in its pre-failure status, so
no edge notification or expansion can ever re-stage it, which is what makes
the plain assignment in the code safe). -/
theorem claim_C6 (beh : Behavior) (fuel : Nat) (s : PPState) (pid : Nat)
    (hplen : pid < s.nodes.length)
    (hpexc : (getNode s pid).exception = none)
    (hpst : (getNode s pid).status ≠ ExecStatus.Idle)
    (hexc3 : ∀ j, j < s.nodes.length → (getNode s j).exception ≠ none
        → (getNode s j).status ≠ ExecStatus.Idle)
    (i : Nat) (e : Exc) (hi : (getNode s i).exception = some e) :
    (getNode (prepareProcessor beh fuel s pid).state i).exception = some e := by
  apply prepareLoop_exc
  · refine ⟨List.nodup_singleton pid, ?_, hexc3⟩
    intro j hj
    have hj' : j = pid := by simpa using hj
    subst hj'
    exact ⟨hplen, hpexc, hpst⟩
  · exact hi

/-- Witness for C6: node 0 already carries a captured exception; running
`prepareProcessor` on node 1, whose `prepare` throws a second exception, does
not overwrite node 0's slot. -/
theorem claim_C6_witness :
    (getNode (prepareProcessor
        { prepareFn := fun pid _ _ _ =>
            if pid = 1 then .error ⟨.PROC_ERROR, "second"⟩ else .ok .NeedData,
          expandFn := fun _ _ => .ok [], wireFn := fun _ _ => [] }
        3
        { processors := [⟨"a", ""⟩, ⟨"b", ""⟩],
          nodes := [{ status := .Preparing, exception := some ⟨.PROC_ERROR, "first"⟩ },
                    { status := .Executing }],
          queue := [], async_queue := [], updated_edges := [], updated_processors := [] }
        1).state 0).exception = some ⟨.PROC_ERROR, "first"⟩ :=
  claim_C6
    { prepareFn := fun pid _ _ _ =>
        if pid = 1 then .error ⟨.PROC_ERROR, "second"⟩ else .ok .NeedData,
      expandFn := fun _ _ => .ok [], wireFn := fun _ _ => [] }
    3
    { processors := [⟨"a", ""⟩, ⟨"b", ""⟩],
      nodes := [{ status := .Preparing, exception := some ⟨.PROC_ERROR, "first"⟩ },
                { status := .Executing }],
      queue := [], async_queue := [], updated_edges := [], updated_processors := [] }
    1 (by decide) (by decide) (by decide) (by decide) 0 ⟨.PROC_ERROR, "first"⟩ (by decide)

end ClickHouse
